import Mathlib

/-!
# Verification of the Turing-AI learning/retrieval engine

A shallow embedding of the conversational learning server (`part_000` of the
repository, with `server.js` as a near-duplicate variant).  JavaScript arrays
become `List`, objects keyed by strings become functions `String → _`,
`Date.now()` becomes an explicit `now : Nat` argument (epoch milliseconds),
and JS numbers (always non-negative integers here) become `Nat`.  The
stable `Array.prototype.sort` with comparator `(a, b) => scoreB - scoreA`
is embedded as a stable insertion sort by descending score (the stable sort
of a list under a total preorder is unique).  Floating point relevance
scores (`overlap / max(len,1) * quality`) are embedded as exact fractions.
The md5 hash used as a response-cache key is embedded by keying the cache
on the (lowercased, trimmed) preimage itself.
-/

namespace TuringAI

/-- One learned input→response association (`PatternEntry` of the spec);
fields mirror the object literals built in `IntelligentLearner.learnPattern`. -/
structure PatternEntry where
  input : String
  response : String
  quality : Nat
  confidence : Nat
  timestamp : Nat
deriving DecidableEq, Repr

/-- Aggregate counters (`globalMemory.stats`). -/
structure Stats where
  totalMessages : Nat
  totalConversations : Nat
  trainingDataPoints : Nat
  garbageFiltered : Nat
  liveConversationsLearned : Nat
deriving DecidableEq, Repr

/-- The in-memory knowledge base (`globalMemory`).  The unused legacy
`patterns` field is omitted.  `semanticClusters` maps a keyword to its
cluster (a missing key in the JS object behaves as the empty cluster, which
is what `if (!semanticClusters[keyword]) semanticClusters[keyword] = []`
produces); `qualityScores` maps a lowercased input to its last quality. -/
structure Memory where
  contextPairs : List PatternEntry
  semanticClusters : String → List PatternEntry
  qualityScores : String → Option Nat
  stats : Stats

/-- The freshly initialised `globalMemory` object. -/
def initialMemory : Memory where
  contextPairs := []
  semanticClusters := fun _ => []
  qualityScores := fun _ => none
  stats := ⟨0, 0, 0, 0, 0⟩

/-! ## Keyword extraction (`IntelligentLearner.extractKeywords`) -/

/-- The fixed stop-word list of `extractKeywords`. -/
def stopWords : List String :=
  ["the", "a", "an", "and", "or", "but", "in", "on", "at", "to", "for",
   "of", "with", "by", "from", "is", "are", "was", "were", "be", "been",
   "being", "have", "has", "had", "do", "does", "did", "will", "would",
   "could", "should", "may", "might", "can", "this", "that", "these",
   "those", "i", "you", "he", "she", "it", "we", "they", "what", "which",
   "who", "when", "where", "why", "how"]

/-- `text.toLowerCase()` (ASCII case mapping; every non-ASCII character is
stripped by the keyword filters before it can matter). -/
def jsToLower (s : String) : String := String.mk (s.toList.map Char.toLower)

/-- `text.trim()`: strip leading and trailing whitespace. -/
def jsTrim (s : String) : String :=
  String.mk (((s.toList.dropWhile Char.isWhitespace).reverse.dropWhile Char.isWhitespace).reverse)

/-- Characters kept by `.replace(/[^a-z0-9\s]/g, '')` (after lowercasing). -/
def keepChar (c : Char) : Bool :=
  (decide ('a' ≤ c) && decide (c ≤ 'z')) ||
  (decide ('0' ≤ c) && decide (c ≤ '9')) ||
  c.isWhitespace

/-- Split a character list into maximal whitespace-free words
(the effect of `.split(/\s+/)` followed by discarding empty strings, which
the `length > 2` filter does anyway). -/
def wordsAux : List Char → List Char → List String
  | [], acc => if acc.isEmpty then [] else [String.mk acc.reverse]
  | c :: rest, acc =>
    if c.isWhitespace then
      if acc.isEmpty then wordsAux rest []
      else String.mk acc.reverse :: wordsAux rest []
    else wordsAux rest (c :: acc)

/-- Helper for `dedupFirst`: drop every word already seen. -/
def dedupFirstAux (seen : List String) : List String → List String
  | [] => []
  | x :: xs =>
    if seen.contains x then dedupFirstAux seen xs
    else x :: dedupFirstAux (x :: seen) xs

/-- `[...new Set(words)]`: deduplicate keeping the first occurrence. -/
def dedupFirst (l : List String) : List String := dedupFirstAux [] l

/-- `IntelligentLearner.extractKeywords`: lowercase, strip characters outside
`[a-z0-9\s]`, split on whitespace, keep words longer than 2 characters that
are not stop words, deduplicate preserving first occurrence. -/
def extractKeywords (text : String) : List String :=
  let stripped := (text.toList.map Char.toLower).filter keepChar
  let ws := wordsAux stripped []
  dedupFirst (ws.filter (fun w => decide (2 < w.length) && !(stopWords.contains w)))

/-! ## learnPattern (`IntelligentLearner.learnPattern`) -/

/-- A newly inserted entry (`confidence: 1`, current timestamp). -/
def freshEntry (inputLower response : String) (quality now : Nat) : PatternEntry :=
  ⟨inputLower, response, quality, 1, now⟩

/-- Reinforcement of an existing entry with the same response:
`confidence = (confidence || 1) + 1`, `quality = Math.min(100, quality + 2)`,
`timestamp = Date.now()`. -/
def reinforce (now : Nat) (e : PatternEntry) : PatternEntry :=
  { e with confidence := (if e.confidence = 0 then 1 else e.confidence) + 1,
           quality := min 100 (e.quality + 2),
           timestamp := now }

/-- Replacement test for an entry with a different response:
`quality > existing.quality + 10 || ageInDays > 30`, where
`ageInDays = (now - timestamp) / 86400000` so the age test is
`now - timestamp > 2592000000` milliseconds. -/
def shouldReplace (quality now : Nat) (e : PatternEntry) : Bool :=
  decide (e.quality + 10 < quality) || decide (2592000000 < now - e.timestamp)

/-- The find/reinforce/replace/insert logic shared by clusters and context
pairs: `findIndex` locates the first entry with the given (lowercased) input;
a matching entry is reinforced or conditionally replaced in place, and an
absent input is appended (`push`) at the end. -/
def updateEntryList (inputLower response : String) (quality now : Nat) :
    List PatternEntry → List PatternEntry
  | [] => [freshEntry inputLower response quality now]
  | e :: rest =>
    if e.input = inputLower then
      (if e.response = response then reinforce now e
       else if shouldReplace quality now e then freshEntry inputLower response quality now
       else e) :: rest
    else e :: updateEntryList inputLower response quality now rest

/-- `quality * (confidence || 1)`, the ranking score used by the sorts. -/
def score (e : PatternEntry) : Nat :=
  e.quality * (if e.confidence = 0 then 1 else e.confidence)

/-- "`a` is ranked at least as high as `b`": descending by score. -/
def scoreGe (a b : PatternEntry) : Prop := score b ≤ score a

instance : DecidableRel scoreGe := fun a b => by unfold scoreGe; infer_instance

instance : IsTotal PatternEntry scoreGe where
  total a b := Nat.le_total (score b) (score a)

instance : IsTrans PatternEntry scoreGe where
  trans _ _ _ h1 h2 := Nat.le_trans h2 h1

/-- The stable descending sort `(a, b) => scoreB - scoreA` (ES2019 `sort` is
stable, and the stable sort of a total preorder is unique, so the insertion
sort here produces exactly the JS result). -/
def sortByScoreDesc (l : List PatternEntry) : List PatternEntry :=
  l.insertionSort scoreGe

/-- Per-keyword cluster update of `learnPattern`: find/reinforce/replace/insert,
re-sort by descending score, and truncate to 20 entries when above the cap. -/
def clusterStep (inputLower response : String) (quality now : Nat)
    (l : List PatternEntry) : List PatternEntry :=
  if 20 < (sortByScoreDesc (updateEntryList inputLower response quality now l)).length
  then (sortByScoreDesc (updateEntryList inputLower response quality now l)).take 20
  else sortByScoreDesc (updateEntryList inputLower response quality now l)

/-- The `keywords.forEach(...)` loop: update the cluster of each keyword. -/
def learnClusters (inputLower response : String) (quality now : Nat)
    (kws : List String) (f : String → List PatternEntry) : String → List PatternEntry :=
  kws.foldl
    (fun g keyword =>
      fun k => if k = keyword then clusterStep inputLower response quality now (g keyword) else g k)
    f

/-- `IntelligentLearner.learnPattern(input, response, quality)` at time `now`:
update every keyword cluster; when `quality >= 60`, apply the same
find/reinforce/replace/insert logic to `contextPairs` and, only when the
result exceeds 1000 entries, sort descending by score and truncate to 1000;
finally record `qualityScores[inputLower] = quality`. -/
def learnPattern (input response : String) (quality now : Nat) (m : Memory) : Memory :=
  let keywords := extractKeywords input
  let inputLower := jsToLower input
  let clusters1 := learnClusters inputLower response quality now keywords m.semanticClusters
  let m1 := { m with semanticClusters := clusters1 }
  let m2 :=
    if 60 ≤ quality then
      let pairs := updateEntryList inputLower response quality now m1.contextPairs
      let pairs2 := if 1000 < pairs.length then (sortByScoreDesc pairs).take 1000 else pairs
      { m1 with contextPairs := pairs2 }
    else m1
  { m2 with qualityScores := fun k => if k = inputLower then some quality else m2.qualityScores k }

/-! ## Response cache (`ResponseCache`)

The JS cache is a `Map` keyed by `md5(message.toLowerCase().trim())`; the
embedding keys entries by the normalized preimage itself (md5 is treated as
injective).  `Map` iteration order is insertion order, which the list order
models. -/

structure CacheEntry where
  key : String
  response : String
  timestamp : Nat
deriving DecidableEq, Repr

/-- `_hash`'s normalization of the message (the md5 step is elided). -/
def cacheKey (message : String) : String := jsTrim (jsToLower message)

/-- `CONFIG.RESPONSE_CACHE_TTL_MS`. -/
def cacheTTL : Nat := 5000

/-- `ResponseCache.get`: a hit returns the entry unless it is older than the
TTL, in which case it is deleted and the lookup misses. -/
def cacheGet (now : Nat) (message : String) (cache : List CacheEntry) :
    Option String × List CacheEntry :=
  let k := cacheKey message
  match cache.find? (fun e => decide (e.key = k)) with
  | none => (none, cache)
  | some e =>
    if cacheTTL < now - e.timestamp then
      (none, cache.filter (fun e2 => decide (e2.key ≠ k)))
    else (some e.response, cache)

/-- `Map.set`: update an existing key in place, else append at the end. -/
def cacheSetEntry (k resp : String) (now : Nat) : List CacheEntry → List CacheEntry
  | [] => [⟨k, resp, now⟩]
  | e :: rest =>
    if e.key = k then ⟨k, resp, now⟩ :: rest else e :: cacheSetEntry k resp now rest

/-- `ResponseCache.set`: insert, then evict the oldest-inserted key when the
cache grows beyond 1000 entries. -/
def cacheSet (message resp : String) (now : Nat) (cache : List CacheEntry) :
    List CacheEntry :=
  let c := cacheSetEntry (cacheKey message) resp now cache
  if 1000 < c.length then c.drop 1 else c

/-! ## Metrics (`MetricsCollector`) -/

structure Metrics where
  requestCount : Nat
  errorCount : Nat
  totalResponseTime : Nat
  learningCount : Nat
  cacheHits : Nat
  cacheMisses : Nat
deriving DecidableEq, Repr

def Metrics.initial : Metrics := ⟨0, 0, 0, 0, 0, 0⟩

/-- `metrics.recordRequest(duration)`; the embedding evaluates a request at a
single instant, so the duration contribution is 0. -/
def recordRequest (mx : Metrics) : Metrics :=
  { mx with requestCount := mx.requestCount + 1 }

/-! ## Server state -/

/-- One element of a session's conversation buffer. -/
structure HistoryEntry where
  user : String
  ai : String
  timestamp : Nat
deriving DecidableEq, Repr

/-- The mutable process state touched by the chat path: the knowledge base,
the response cache, metrics, the session manager's two maps, and the
`saveScheduled` flag of the save coordinator. -/
structure ChatState where
  memory : Memory
  cache : List CacheEntry
  metrics : Metrics
  sessionTimes : List (String × Nat)
  conversationBuffer : List (String × List HistoryEntry)
  saveScheduled : Bool

/-! ## findBestResponse (`IntelligentLearner.findBestResponse`) -/

/-- An unnormalized non-negative fraction `num / den` (`den > 0` wherever
one is built), used to carry relevance scores exactly. -/
structure Frac where
  num : Nat
  den : Nat
deriving DecidableEq, Repr

/-- Exact order on fractions by cross-multiplication. -/
def fracLe (a b : Frac) : Prop := a.num * b.den ≤ b.num * a.den

def fracLt (a b : Frac) : Prop := a.num * b.den < b.num * a.den

instance (a b : Frac) : Decidable (fracLe a b) := by unfold fracLe; infer_instance
instance (a b : Frac) : Decidable (fracLt a b) := by unfold fracLt; infer_instance

/-- `candidate.relevanceScore = (overlap / Math.max(keywords.length, 1)) *
candidate.quality`, computed exactly as the fraction
`(overlap * quality) / max(keywords.length, 1)`. -/
def relevance (keywords : List String) (c : PatternEntry) : Frac :=
  let ck := extractKeywords c.input
  let overlap := (keywords.filter (fun k => ck.contains k)).length
  ⟨overlap * c.quality, max keywords.length 1⟩

/-- Descending order on relevance-scored candidates (`(a, b) =>
b.relevanceScore - a.relevanceScore`, again a stable sort).  All candidates
of one query share the same positive denominator, so the cross-multiplied
comparison agrees with the numeric one. -/
def relGe (a b : PatternEntry × Frac) : Prop := fracLe b.2 a.2

instance : DecidableRel relGe := fun a b => by unfold relGe; infer_instance

/-- `IntelligentLearner.findBestResponse(input)` (the `part_000` variant with
cache and metrics): consult the cache; then exact match over `contextPairs`;
then rank the union of the keyword clusters by relevance and answer when the
top candidate scores above 30; otherwise no match. -/
def findBestResponse (now : Nat) (input : String) (st : ChatState) :
    Option String × ChatState :=
  match cacheGet now input st.cache with
  | (some r, cache1) =>
    let mxHit := { st.metrics with cacheHits := st.metrics.cacheHits + 1 }
    (some r, { st with cache := cache1, metrics := mxHit })
  | (none, cache1) =>
    let mxMiss := { st.metrics with cacheMisses := st.metrics.cacheMisses + 1 }
    let st1 := { st with cache := cache1, metrics := mxMiss }
    let keywords := extractKeywords input
    let inputLower := jsToLower input
    match st1.memory.contextPairs.find? (fun p => decide (p.input = inputLower)) with
    | some pair =>
      (some pair.response, { st1 with cache := cacheSet input pair.response now st1.cache })
    | none =>
      let candidates := keywords.foldl (fun acc k => acc ++ st1.memory.semanticClusters k) []
      if candidates.isEmpty then (none, st1)
      else
        let scored := candidates.map (fun c => (c, relevance keywords c))
        match (scored.insertionSort relGe).head? with
        | some top =>
          if fracLt ⟨30, 1⟩ top.2 then
            (some top.1.response, { st1 with cache := cacheSet input top.1.response now st1.cache })
          else (none, st1)
        | none => (none, st1)

/-! ## Quality scoring (`GarbageClassifier.calculateQuality`) -/

/-- Number of maximal whitespace runs in a character list. -/
def wsRunsAux : List Char → Bool → Nat
  | [], _ => 0
  | c :: rest, inRun =>
    if c.isWhitespace then (if inRun then 0 else 1) + wsRunsAux rest true
    else wsRunsAux rest false

/-- `s.split(/\s+/).length` in JavaScript: the empty string yields 1, and
each maximal whitespace run is a separator (boundary runs produce empty
fragments, which still count). -/
def jsSplitWsCount (s : String) : Nat :=
  if s.toList.isEmpty then 1 else wsRunsAux s.toList false + 1

/-- `response.match(/[.!?]$/)`. -/
def endsWithPunct (s : String) : Bool :=
  match s.toList.getLast? with
  | some c => c = '.' || c = '!' || c = '?'
  | none => false

/-- `GarbageClassifier.calculateQuality(input, response)`: 50 base plus
length, punctuation and variety bonuses, clamped to `[0, 100]`. -/
def calculateQuality (input response : String) : Nat :=
  let inputWords := jsSplitWsCount input
  let responseWords := jsSplitWsCount response
  let s := 50
    + (if 1 ≤ inputWords ∧ inputWords ≤ 50 then 15 else 0)
    + (if 1 ≤ responseWords ∧ responseWords ≤ 100 then 15 else 0)
    + (if 3 ≤ responseWords ∧ responseWords ≤ 20 then 10 else 0)
    + (if endsWithPunct response then 5 else 0)
    + (if jsToLower input ≠ jsToLower response then 5 else 0)
  max 0 (min 100 s)

/-! ## The chat route (`app.post('/api/chat')` of `part_000`)

The handler is embedded from the point where the cleaned message is in hand:
`InputValidator.validateMessage` and `TextCleaner.clean` are pure functions
that run before it and touch no state, and the garbage classifier (a pure
predicate over normalized text, §9 of the design notes) is passed in as `g`.
`Math.random()` fallback selection is embedded by an arbitrary `rand`
index, and `FORCE_SYNC_ON_LEARN` as the `forceSync` flag. -/

/-- The fixed response to garbage input. -/
def garbageResponse : String :=
  "Let\x27s keep our conversation meaningful and respectful! 😊"

/-- `[A-Za-z0-9_]`, the `\w` class deciding the `\b` boundary. -/
def isWordChar (c : Char) : Bool :=
  (decide ('a' ≤ c) && decide (c ≤ 'z')) ||
  (decide ('A' ≤ c) && decide (c ≤ 'Z')) ||
  (decide ('0' ≤ c) && decide (c ≤ '9')) || decide (c = '_')

/-- `lower.match(/^(w₁|w₂|...)\b/)`: some alternative is a leading word. -/
def startsWithWordOf (alts : List String) (s : String) : Bool :=
  alts.any (fun pre =>
    pre.toList.isPrefixOf s.toList &&
    (match (s.toList.drop pre.toList.length).head? with
     | some c => !isWordChar c
     | none => true))

/-- Whether `needle` occurs as a contiguous run inside `hay`. -/
def isSubRun (needle : List Char) : List Char → Bool
  | [] => needle.isEmpty
  | c :: rest => needle.isPrefixOf (c :: rest) || isSubRun needle rest

/-- Unanchored alternation of plain substrings. -/
def containsAnyOf (alts : List String) (s : String) : Bool :=
  alts.any (fun pat => isSubRun pat.toList s.toList)

def greetingReplies : List String :=
  ["hey", "hi", "hello", "hey there", "hi!", "sup", "yo",
   "hey! how are you?", "hello! how\x27s it going?"]

def statusReplies : List String :=
  ["good, you?", "pretty good!", "not bad, how about you?",
   "doing alright", "i\x27m good thanks", "fine, and you?", "great! how are you?"]

def questionReplies : List String :=
  ["what do you think?", "i\x27m not sure, what would you say?",
   "hmm, good question", "that\x27s interesting, tell me your thoughts",
   "not sure tbh", "idk, what about you?", "what\x27s your take on it?"]

def casualReplies : List String :=
  ["oh really?", "interesting", "cool", "nice", "that\x27s cool",
   "oh nice", "yeah?", "for real?", "i see", "tell me more",
   "go on", "interesting!", "oh wow", "haha nice", "that\x27s interesting",
   "cool, tell me more", "nice! what else?", "oh that\x27s cool",
   "i feel that", "makes sense"]

/-- The fallback-reply selection of the chat route, with `rand` standing for
the `Math.random()` draw (`Math.floor(Math.random() * n)` becomes
`rand % n`). -/
def fallbackResponse (cleaned : String) (rand : Nat) : String :=
  let lower := jsToLower cleaned
  let pick (l : List String) : String := l.getD (rand % l.length) ""
  if startsWithWordOf ["hi", "hey", "hello", "sup", "yo", "greetings",
      "howdy", "wassup", "what\x27s up"] lower then
    pick greetingReplies
  else if containsAnyOf ["how are you", "how are u", "how r you", "how r u",
      "how\x27s it going", "hows it going", "what\x27s up", "whats up"] lower then
    pick statusReplies
  else if ["what", "where", "when", "who", "why", "how", "which", "whose",
      "?"].any (fun p => p.toList.isPrefixOf lower.toList) then
    pick questionReplies
  else
    pick casualReplies

/-- `sessionManager.updateActivity`. -/
def setSessionTime (sid : String) (now : Nat) :
    List (String × Nat) → List (String × Nat)
  | [] => [(sid, now)]
  | p :: rest => if p.1 = sid then (sid, now) :: rest else p :: setSessionTime sid now rest

/-- `sessionManager.getConversationHistory` (a missing session reads as the
freshly created empty buffer). -/
def lookupBuffer (buf : List (String × List HistoryEntry)) (sid : String) :
    List HistoryEntry :=
  match buf.find? (fun p => decide (p.1 = sid)) with
  | some p => p.2
  | none => []

def setBuffer (sid : String) (h : List HistoryEntry) :
    List (String × List HistoryEntry) → List (String × List HistoryEntry)
  | [] => [(sid, h)]
  | p :: rest => if p.1 = sid then (sid, h) :: rest else p :: setBuffer sid h rest

structure ChatResult where
  response : String
  learned : Bool
  state : ChatState

/-- The garbage branch: bump `stats.garbageFiltered`, record the request,
and answer with the fixed response (no other state is touched). -/
def chatGarbageBranch (st : ChatState) : ChatResult :=
  let stats1 := { st.memory.stats with garbageFiltered := st.memory.stats.garbageFiltered + 1 }
  let mem1 := { st.memory with stats := stats1 }
  { response := garbageResponse, learned := false,
    state := { st with memory := mem1, metrics := recordRequest st.metrics } }

/-- The learning step of the chat route: when the (post-append) history has a
previous exchange and both sides pass the classifier, learn the pattern at
`calculateQuality` quality if it reaches `CONFIG.MIN_QUALITY_SCORE = 40`,
bumping `liveConversationsLearned` and either saving synchronously
(`FORCE_SYNC_ON_LEARN`, a pure I/O effect) or queueing an async save. -/
def chatLearnStep (g : String → Bool) (forceSync : Bool) (now : Nat)
    (cleaned : String) (history2 : List HistoryEntry) (st3 : ChatState) : ChatState :=
  if 2 ≤ history2.length then
    let prevPair := history2.getD (history2.length - 2) ⟨"", "", 0⟩
    if !g prevPair.user && !g cleaned then
      let quality := calculateQuality prevPair.user cleaned
      if 40 ≤ quality then
        let mem1 := learnPattern prevPair.user cleaned quality now st3.memory
        let lstats := { mem1.stats with liveConversationsLearned := mem1.stats.liveConversationsLearned + 1 }
        let mem2 := { mem1 with stats := lstats }
        let lmx := { st3.metrics with learningCount := st3.metrics.learningCount + 1 }
        let st' := { st3 with memory := mem2, metrics := lmx }
        if forceSync then st' else { st' with saveScheduled := true }
      else st3
    else st3
  else st3

/-- End of the route: bump `stats.totalMessages` and queue a save on every
10th message. -/
def chatFinalize (st4 : ChatState) : ChatState :=
  let tstats : Stats := { st4.memory.stats with totalMessages := st4.memory.stats.totalMessages + 1 }
  let mem3 : Memory := { st4.memory with stats := tstats }
  let st5 : ChatState := { st4 with memory := mem3 }
  if tstats.totalMessages % 10 = 0 then { st5 with saveScheduled := true } else st5

/-- The non-garbage branch: update session activity, look up a learned
response (falling back to the canned replies), append to the session
history (capped at 10 entries, with the learning step reading the
post-append buffer exactly as the aliased JS array does), learn, and
finalize. -/
def chatMainBranch (g : String → Bool) (forceSync : Bool) (rand now : Nat)
    (sessionId cleaned : String) (st : ChatState) : ChatResult :=
  let st1 := { st with sessionTimes := setSessionTime sessionId now st.sessionTimes }
  let fr := findBestResponse now cleaned st1
  let response := fr.1.getD (fallbackResponse cleaned rand)
  let st2 := fr.2
  let history1 := lookupBuffer st2.conversationBuffer sessionId ++ [⟨cleaned, response, now⟩]
  let history2 := if 10 < history1.length then history1.drop 1 else history1
  let st3 := { st2 with conversationBuffer := setBuffer sessionId history2 st2.conversationBuffer }
  let st6 := chatFinalize (chatLearnStep g forceSync now cleaned history2 st3)
  { response := response, learned := fr.1.isSome,
    state := { st6 with metrics := recordRequest st6.metrics } }

def handleChat (g : String → Bool) (forceSync : Bool) (rand now : Nat)
    (sessionId cleaned : String) (st : ChatState) : ChatResult :=
  if cleaned = "" || g cleaned then chatGarbageBranch st
  else chatMainBranch g forceSync rand now sessionId cleaned st

/-! ## Snapshot loading (`loadMemory`)

`loadMemory` reads a string from the first available source, runs
`JSON.parse` on it inside a `try`, and installs the parsed object wholesale
when `loaded.stats && loaded.contextPairs && loaded.semanticClusters` are
all truthy.  The embedding abstracts `JSON.parse` as an `Option Json`
(`none` for a parse failure, which the surrounding `catch` turns into
keeping the defaults; a missing file also keeps the defaults). -/

/-- A JSON value. -/
inductive Json where
  | null
  | bool (b : Bool)
  | num (n : Int)
  | str (s : String)
  | arr (elems : List Json)
  | obj (fields : List (String × Json))

/-- JS property access `j[k]` (`undefined`, i.e. `none`, off objects). -/
def jsonLookup (j : Json) (k : String) : Option Json :=
  match j with
  | .obj fields => (fields.find? (fun p => decide (p.1 = k))).map Prod.snd
  | _ => none

/-- JavaScript truthiness of `j[k]` (`undefined`, `null`, `false`, `0` and
`""` are falsy; every array and object, even empty, is truthy). -/
def jsTruthy : Option Json → Bool
  | none => false
  | some .null => false
  | some (.bool b) => b
  | some (.num n) => decide (n ≠ 0)
  | some (.str s) => !s.toList.isEmpty
  | some (.arr _) => true
  | some (.obj _) => true

def jsonIsArr : Json → Bool
  | .arr _ => true
  | _ => false

def jsonIsObj : Json → Bool
  | .obj _ => true
  | _ => false

/-- The accept/reject decision of `loadMemory`: a parse failure keeps the
defaults; a parsed snapshot replaces `globalMemory` wholesale exactly when
`loaded.stats`, `loaded.contextPairs` and `loaded.semanticClusters` are all
truthy, and is otherwise rejected ("Invalid memory structure"). -/
def loadMemoryValidate (parsed : Option Json) (deflt : Json) : Json :=
  match parsed with
  | none => deflt
  | some loaded =>
    if jsTruthy (jsonLookup loaded "stats") &&
       jsTruthy (jsonLookup loaded "contextPairs") &&
       jsTruthy (jsonLookup loaded "semanticClusters") then loaded
    else deflt

/-! ## saveMemory (`saveMemory`)

`saveMemory` is embedded as its effect trace over an oracle telling which
of the four targets would succeed: the primary temp-write+rename, the
persistent ("durable") temp-write+rename, the Postgres upsert and the
Replit-DB POST.  The two remote helpers catch internally and log a warning,
so their promises never reject; they are launched fire-and-forget *after*
the file writes.  Both file writes sit in the same `try`, whose `catch`
logs and *rethrows*. -/

structure SaveOutcome where
  primaryWritten : Bool
  durableWritten : Bool
  remotesLaunched : Bool
  warnings : Nat
  thrown : Bool
deriving DecidableEq, Repr

/-- Effect trace of one `saveMemory()` call, given which targets succeed. -/
def saveMemory (primaryOk durableOk pgOk replitOk : Bool) : SaveOutcome :=
  if !primaryOk then
    { primaryWritten := false, durableWritten := false, remotesLaunched := false,
      warnings := 0, thrown := true }
  else if !durableOk then
    { primaryWritten := true, durableWritten := false, remotesLaunched := false,
      warnings := 0, thrown := true }
  else
    { primaryWritten := true, durableWritten := true, remotesLaunched := true,
      warnings := (if pgOk then 0 else 1) + (if replitOk then 0 else 1),
      thrown := false }

/-! ## The save coordinator (`queueSave` / `saveQueue` / `gracefulShutdown`)

The JS coordinator is the pair `saveScheduled : boolean` (checked and set
synchronously by `queueSave`), a pending `setImmediate` callback that
appends one job to the promise chain `saveQueue`, and the chain itself,
which runs jobs strictly one after another; each job first clears
`saveScheduled` and then serializes `globalMemory` (the synchronous
`JSON.stringify` prefix of `saveMemory`).  The embedding is a small-step
event machine over that state: `ver` counts store mutations, `serialized`
records the store version captured by each save that started, `file` is
the version last persisted to the primary file.  A failed save runs the
`.catch` handler, which clears `saveScheduled`. -/

inductive SaveEvent where
  | mutate
  | queueSave
  | fireImmediate
  | startJob
  | finishOk
  | finishFail
deriving DecidableEq, Repr

structure SaveState where
  ver : Nat
  scheduled : Bool
  immediates : Nat
  chain : Nat
  running : List Nat
  serialized : List Nat
  file : Option Nat
deriving DecidableEq, Repr

def initialSaveState : SaveState :=
  { ver := 0, scheduled := false, immediates := 0, chain := 0,
    running := [], serialized := [], file := none }

/-- One scheduler step.  `startJob` fires only when the previous chained job
has settled (`running = []`) — that is the semantics of `.then` chaining —
and atomically clears `saveScheduled` and snapshots the current store
version, as the job body `saveScheduled = false; await saveMemory()` does
(the `JSON.stringify` prefix of `saveMemory` is synchronous). -/
def saveStep (s : SaveState) : SaveEvent → SaveState
  | .mutate => { s with ver := s.ver + 1 }
  | .queueSave =>
    if s.scheduled then s
    else { s with scheduled := true, immediates := s.immediates + 1 }
  | .fireImmediate =>
    match s.immediates with
    | 0 => s
    | n + 1 => { s with immediates := n, chain := s.chain + 1 }
  | .startJob =>
    match s.chain, s.running with
    | c + 1, [] =>
      { s with chain := c, scheduled := false, running := [s.ver],
               serialized := s.serialized ++ [s.ver] }
    | _, _ => s
  | .finishOk =>
    match s.running with
    | [] => s
    | v :: _ => { s with running := [], file := some v }
  | .finishFail => { s with running := [], scheduled := false }

def runEvents (s : SaveState) (evs : List SaveEvent) : SaveState :=
  evs.foldl saveStep s

/-- No save request is pending or in flight. -/
def Quiescent (s : SaveState) : Prop :=
  s.scheduled = false ∧ s.immediates = 0 ∧ s.chain = 0 ∧ s.running = []

instance (s : SaveState) : Decidable (Quiescent s) := by
  unfold Quiescent; infer_instance

/-- `gracefulShutdown` after the `await saveQueue` drain: one direct
`await saveMemory()` (serializing the current version and, on success,
writing it to the primary file) followed by the belt-and-suspenders
`saveMemorySync()` (same, synchronously). -/
def gracefulShutdown (asyncOk syncOk : Bool) (s : SaveState) : SaveState :=
  let s1 := { s with serialized := s.serialized ++ [s.ver],
                     file := if asyncOk then some s.ver else s.file }
  { s1 with serialized := s1.serialized ++ [s1.ver],
            file := if syncOk then some s1.ver else s1.file }

/-! ## Derived notions used by the statements -/

/-- The `findIndex` predicate of `learnPattern`: this entry stores `inp`. -/
def hasInput (inp : String) (e : PatternEntry) : Bool := decide (e.input = inp)

/-- `l` stores exactly one entry for the input `inp`, and that entry carries
the given response, confidence and quality. -/
def UniqueEntry (inp resp : String) (conf qual : Nat) (l : List PatternEntry) : Prop :=
  l.countP (hasInput inp) = 1 ∧
  ∀ e ∈ l, hasInput inp e = true →
    e.response = resp ∧ e.confidence = conf ∧ e.quality = qual

/-- `l` stores exactly one entry for the input `inp`, namely `E`. -/
def ExactEntry (inp : String) (E : PatternEntry) (l : List PatternEntry) : Prop :=
  l.countP (hasInput inp) = 1 ∧ ∀ e ∈ l, hasInput inp e = true → e = E

instance (inp : String) (E : PatternEntry) (l : List PatternEntry) :
    Decidable (ExactEntry inp E l) := by
  unfold ExactEntry; infer_instance

/-- The server state at startup with no persisted snapshot. -/
def initialChatState : ChatState :=
  { memory := initialMemory, cache := [], metrics := Metrics.initial,
    sessionTimes := [], conversationBuffer := [], saveScheduled := false }

/-- Fold a trace of `learnPattern(input, response, quality)`-at-`now` calls
over a store. -/
def applyLearnOps (ops : List (String × String × Nat × Nat)) (m : Memory) : Memory :=
  ops.foldl (fun m o => learnPattern o.1 o.2.1 o.2.2.1 o.2.2.2 m) m

/-- Repeat `learnPattern input response q` at the successive instants `ts`. -/
def applyLearnTimes (input response : String) (q : Nat) (ts : List Nat) (m : Memory) : Memory :=
  ts.foldl (fun m t => learnPattern input response q t m) m

/-- A default (fresh-start) snapshot in its persisted JSON shape. -/
def defaultSnapshotJson : Json :=
  .obj [("patterns", .obj []), ("contextPairs", .arr []), ("semanticClusters", .obj []),
        ("qualityScores", .obj []),
        ("stats", .obj [("totalMessages", .num 0), ("totalConversations", .num 0),
                        ("trainingDataPoints", .num 0), ("garbageFiltered", .num 0),
                        ("liveConversationsLearned", .num 0)])]

/-- A corrupt snapshot: all three checked fields present and truthy but none
structurally valid (`contextPairs` is not an array, `semanticClusters` and
`stats` are not objects). -/
def corruptSnapshotJson : Json :=
  .obj [("stats", .num 1), ("contextPairs", .num 5), ("semanticClusters", .num 7)]

/-- Auxiliary invariant of the save coordinator: a set `saveScheduled` flag
always has a pending `setImmediate` or chained job behind it, and the
promise chain never runs two jobs at once. -/
def SaveAux (s : SaveState) : Prop :=
  (s.scheduled = true → 0 < s.immediates + s.chain) ∧ s.running.length ≤ 1

/-- State after a save request issued at store version `v`: either some
started save has already serialized a state at least as new as `v`, or a
save start is still pending. -/
def SavePending (v : Nat) (s : SaveState) : Prop :=
  v ≤ s.ver ∧
  ((∃ w ∈ s.serialized, v ≤ w) ∨ s.scheduled = true ∨ 0 < s.immediates ∨ 0 < s.chain)

/-- Twenty inputs sharing the keyword `"zebra"`. -/
def zebraInputs : List String :=
  ["zebra a01", "zebra a02", "zebra a03", "zebra a04", "zebra a05",
   "zebra a06", "zebra a07", "zebra a08", "zebra a09", "zebra a10",
   "zebra a11", "zebra a12", "zebra a13", "zebra a14", "zebra a15",
   "zebra a16", "zebra a17", "zebra a18", "zebra a19", "zebra a20"]

/-- A reachable store whose `"zebra"` cluster is full with 20 high-scoring
entries, none of them for the input `"zebra"` itself. -/
def zebraFullStore : Memory :=
  zebraInputs.foldl (fun m s => learnPattern s "ra" 90 0 m) initialMemory

/-! ## Basic lemmas about the sort and the deduplication -/

theorem sortByScoreDesc_perm (l : List PatternEntry) : (sortByScoreDesc l).Perm l :=
  List.perm_insertionSort scoreGe l

theorem length_sortByScoreDesc (l : List PatternEntry) :
    (sortByScoreDesc l).length = l.length :=
  (sortByScoreDesc_perm l).length_eq

theorem countP_sortByScoreDesc (p : PatternEntry → Bool) (l : List PatternEntry) :
    (sortByScoreDesc l).countP p = l.countP p :=
  (sortByScoreDesc_perm l).countP_eq p

theorem mem_sortByScoreDesc {e : PatternEntry} {l : List PatternEntry} :
    e ∈ sortByScoreDesc l ↔ e ∈ l :=
  (sortByScoreDesc_perm l).mem_iff

theorem sorted_sortByScoreDesc (l : List PatternEntry) :
    List.Sorted scoreGe (sortByScoreDesc l) :=
  List.sorted_insertionSort scoreGe l

theorem mem_of_mem_dedupFirstAux {a : String} :
    ∀ {seen l : List String}, a ∈ dedupFirstAux seen l → a ∈ l := by
  intro seen l
  induction l generalizing seen with
  | nil => simp [dedupFirstAux]
  | cons x xs ih =>
    simp only [dedupFirstAux]
    split
    · exact fun h => List.mem_cons_of_mem _ (ih h)
    · intro h
      rcases List.mem_cons.mp h with h | h
      · exact h ▸ List.mem_cons_self x xs
      · exact List.mem_cons_of_mem _ (ih h)

theorem not_mem_seen_of_mem_dedupFirstAux {a : String} :
    ∀ {seen l : List String}, a ∈ dedupFirstAux seen l → a ∉ seen := by
  intro seen l
  induction l generalizing seen with
  | nil => simp [dedupFirstAux]
  | cons x xs ih =>
    simp only [dedupFirstAux]
    split
    · exact ih
    · intro h hseen
      rcases List.mem_cons.mp h with rfl | h
      · rename_i hc
        exact hc (List.elem_iff.mpr hseen)
      · exact ih h (List.mem_cons_of_mem _ hseen)

theorem nodup_dedupFirstAux :
    ∀ (l seen : List String), (dedupFirstAux seen l).Nodup := by
  intro l
  induction l with
  | nil => intro seen; simp [dedupFirstAux]
  | cons x xs ih =>
    intro seen
    simp only [dedupFirstAux]
    split
    · exact ih seen
    · refine List.nodup_cons.mpr ⟨fun hmem => ?_, ih (x :: seen)⟩
      exact not_mem_seen_of_mem_dedupFirstAux hmem (List.mem_cons_self x seen)

theorem extractKeywords_nodup (text : String) : (extractKeywords text).Nodup :=
  nodup_dedupFirstAux _ []

/-! ## Structural lemmas about `updateEntryList` and `clusterStep` -/

theorem reinforce_input (t : Nat) (e : PatternEntry) : (reinforce t e).input = e.input := rfl

theorem freshEntry_input (inp r : String) (q t : Nat) :
    (freshEntry inp r q t).input = inp := rfl

/-- When no entry stores `inp`, the update is a plain `push`. -/
theorem updateEntryList_insert {inp r : String} {q t : Nat} {l : List PatternEntry}
    (h : ∀ e ∈ l, hasInput inp e = false) :
    updateEntryList inp r q t l = l ++ [freshEntry inp r q t] := by
  induction l with
  | nil => rfl
  | cons e rest ih =>
    have he : ¬ e.input = inp := by
      have := h e (List.mem_cons_self e rest)
      simpa [hasInput] using this
    simp only [updateEntryList, if_neg he, List.cons_append, List.cons.injEq, true_and]
    exact ih fun e' h' => h e' (List.mem_cons_of_mem _ h')

/-- When exactly one entry stores `inp`, the update decomposes the list
around it and rewrites only that entry, leaving both sides untouched. -/
theorem updateEntryList_found {inp r : String} {q t : Nat} {E : PatternEntry}
    {l : List PatternEntry}
    (hcount : l.countP (hasInput inp) = 1)
    (hval : ∀ e ∈ l, hasInput inp e = true → e = E) :
    ∃ l1 l2, l = l1 ++ E :: l2 ∧
      (∀ e ∈ l1, hasInput inp e = false) ∧
      (∀ e ∈ l2, hasInput inp e = false) ∧
      E.input = inp ∧
      updateEntryList inp r q t l =
        l1 ++ (if E.response = r then reinforce t E
               else if shouldReplace q t E then freshEntry inp r q t else E) :: l2 := by
  induction l with
  | nil => simp at hcount
  | cons e rest ih =>
    by_cases h : hasInput inp e = true
    · have heE : e = E := hval e (List.mem_cons_self _ _) h
      subst heE
      have hinp : e.input = inp := by simpa [hasInput] using h
      have hrest : rest.countP (hasInput inp) = 0 := by
        rw [List.countP_cons, h] at hcount
        simp only [if_pos] at hcount
        omega
      have hrest' : ∀ e' ∈ rest, hasInput inp e' = false := by
        intro e' he'
        have := List.countP_eq_zero.mp hrest e' he'
        simpa using this
      refine ⟨[], rest, by simp, by simp, hrest', hinp, ?_⟩
      simp only [updateEntryList, if_pos hinp, List.nil_append]
    · have hf : hasInput inp e = false := by simpa using h
      have hne : ¬ e.input = inp := by simpa [hasInput] using h
      have hcount' : rest.countP (hasInput inp) = 1 := by
        rw [List.countP_cons, hf] at hcount
        simp only [Bool.false_eq_true, if_false] at hcount
        omega
      have hval' : ∀ e' ∈ rest, hasInput inp e' = true → e' = E :=
        fun e' h' => hval e' (List.mem_cons_of_mem _ h')
      obtain ⟨l1, l2, hdec, h1, h2, hEinp, hupd⟩ := ih hcount' hval'
      refine ⟨e :: l1, l2, by rw [hdec, List.cons_append], ?_, h2, hEinp, ?_⟩
      · intro e' he'
        rcases List.mem_cons.mp he' with rfl | he'
        · exact hf
        · exact h1 e' he'
      · simp only [updateEntryList, if_neg hne, hupd, List.cons_append]

/-- `ExactEntry` transfers along permutations. -/
theorem ExactEntry.perm {inp : String} {E : PatternEntry} {l l' : List PatternEntry}
    (h : ExactEntry inp E l) (hp : l'.Perm l) : ExactEntry inp E l' :=
  ⟨(hp.countP_eq _).trans h.1, fun e he => h.2 e (hp.subset he)⟩

/-- When the intermediate list stays within the cap, `clusterStep` is just
the re-sort. -/
theorem clusterStep_eq_sort (inp r : String) (q t : Nat) (l : List PatternEntry)
    (h : (updateEntryList inp r q t l).length ≤ 20) :
    clusterStep inp r q t l = sortByScoreDesc (updateEntryList inp r q t l) := by
  have hs : (sortByScoreDesc (updateEntryList inp r q t l)).length ≤ 20 := by
    rw [length_sortByScoreDesc]; exact h
  unfold clusterStep
  rw [if_neg (by omega)]

theorem countP_append_decomp {inp : String} {E : PatternEntry}
    {l1 l2 : List PatternEntry}
    (h1 : ∀ e ∈ l1, hasInput inp e = false)
    (h2 : ∀ e ∈ l2, hasInput inp e = false)
    (hE : hasInput inp E = true) :
    (l1 ++ E :: l2).countP (hasInput inp) = 1 := by
  rw [List.countP_append, List.countP_cons, hE,
      List.countP_eq_zero.mpr (fun e he => by simp [h1 e he]),
      List.countP_eq_zero.mpr (fun e he => by simp [h2 e he])]
  simp

theorem exactEntry_append_decomp {inp : String} {E : PatternEntry}
    {l1 l2 : List PatternEntry}
    (h1 : ∀ e ∈ l1, hasInput inp e = false)
    (h2 : ∀ e ∈ l2, hasInput inp e = false)
    (hE : hasInput inp E = true) :
    ExactEntry inp E (l1 ++ E :: l2) := by
  refine ⟨countP_append_decomp h1 h2 hE, ?_⟩
  intro e he hmatch
  rcases List.mem_append.mp he with he | he
  · rw [h1 e he] at hmatch; cases hmatch
  · rcases List.mem_cons.mp he with rfl | he
    · rfl
    · rw [h2 e he] at hmatch; cases hmatch

/-- Reinforcement inside a capped cluster: the unique entry for `inp`
becomes its reinforcement, the cluster keeps its size. -/
theorem clusterStep_reinforce {inp r : String} {q t : Nat} {E : PatternEntry}
    {l : List PatternEntry}
    (hE : ExactEntry inp E l) (hresp : E.response = r) (hlen : l.length ≤ 20) :
    ExactEntry inp (reinforce t E) (clusterStep inp r q t l) ∧
    (clusterStep inp r q t l).length = l.length := by
  obtain ⟨l1, l2, hdec, h1, h2, hEinp, hupd⟩ := updateEntryList_found hE.1 hE.2
  rw [if_pos hresp] at hupd
  have hulen : (updateEntryList inp r q t l).length = l.length := by
    rw [hupd, hdec]; simp
  have hstep := clusterStep_eq_sort inp r q t l (by omega)
  constructor
  · refine ExactEntry.perm ?_ (hstep ▸ sortByScoreDesc_perm _)
    rw [hupd]
    exact exactEntry_append_decomp h1 h2 (by simp [hasInput, reinforce_input, hEinp])
  · rw [hstep, length_sortByScoreDesc, hulen]

/-- Insertion into a cluster with room: the fresh entry is appended and the
cluster grows by one. -/
theorem clusterStep_insert {inp r : String} {q t : Nat} {l : List PatternEntry}
    (h : ∀ e ∈ l, hasInput inp e = false) (hlen : l.length < 20) :
    ExactEntry inp (freshEntry inp r q t) (clusterStep inp r q t l) ∧
    (clusterStep inp r q t l).length = l.length + 1 := by
  have hupd := updateEntryList_insert (q := q) (t := t) (r := r) h
  have hulen : (updateEntryList inp r q t l).length = l.length + 1 := by
    rw [hupd]; simp
  have hstep := clusterStep_eq_sort inp r q t l (by omega)
  constructor
  · refine ExactEntry.perm ?_ (hstep ▸ sortByScoreDesc_perm _)
    rw [hupd]
    exact exactEntry_append_decomp h (by simp) (by simp [hasInput, freshEntry_input])
  · rw [hstep, length_sortByScoreDesc, hulen]

/-- Replacement inside a capped cluster. -/
theorem clusterStep_replace {inp r : String} {q t : Nat} {E : PatternEntry}
    {l : List PatternEntry}
    (hE : ExactEntry inp E l) (hresp : E.response ≠ r)
    (hrep : shouldReplace q t E = true) (hlen : l.length ≤ 20) :
    ExactEntry inp (freshEntry inp r q t) (clusterStep inp r q t l) ∧
    (clusterStep inp r q t l).length = l.length := by
  obtain ⟨l1, l2, hdec, h1, h2, hEinp, hupd⟩ := updateEntryList_found hE.1 hE.2
  rw [if_neg hresp, if_pos hrep] at hupd
  have hulen : (updateEntryList inp r q t l).length = l.length := by
    rw [hupd, hdec]; simp
  have hstep := clusterStep_eq_sort inp r q t l (by omega)
  constructor
  · refine ExactEntry.perm ?_ (hstep ▸ sortByScoreDesc_perm _)
    rw [hupd]
    exact exactEntry_append_decomp h1 h2 (by simp [hasInput, freshEntry_input])
  · rw [hstep, length_sortByScoreDesc, hulen]

/-- A kept entry: the cluster is only re-sorted, every entry unchanged. -/
theorem clusterStep_keep {inp r : String} {q t : Nat} {E : PatternEntry}
    {l : List PatternEntry}
    (hE : ExactEntry inp E l) (hresp : E.response ≠ r)
    (hrep : shouldReplace q t E = false) (hlen : l.length ≤ 20) :
    (clusterStep inp r q t l).Perm l ∧
    ExactEntry inp E (clusterStep inp r q t l) := by
  obtain ⟨l1, l2, hdec, h1, h2, hEinp, hupd⟩ :=
    updateEntryList_found (q := q) (t := t) (r := r) hE.1 hE.2
  rw [if_neg hresp] at hupd
  simp only [hrep, Bool.false_eq_true, if_false] at hupd
  have hid : updateEntryList inp r q t l = l := by rw [hupd, hdec]
  have hstep := clusterStep_eq_sort inp r q t l (by rw [hid]; omega)
  have hperm : (clusterStep inp r q t l).Perm l := by
    rw [hstep, hid]; exact sortByScoreDesc_perm l
  exact ⟨hperm, ExactEntry.perm hE hperm⟩

/-! ## Lemmas about `learnClusters` and `learnPattern` -/

theorem learnClusters_cons (inp r : String) (q t : Nat) (a : String)
    (rest : List String) (f : String → List PatternEntry) :
    learnClusters inp r q t (a :: rest) f =
      learnClusters inp r q t rest
        (fun k => if k = a then clusterStep inp r q t (f a) else f k) := rfl

/-- A keyword outside the extracted list keeps its cluster. -/
theorem learnClusters_apply_not_mem {inp r : String} {q t : Nat}
    {kws : List String} {f : String → List PatternEntry} {k : String}
    (h : k ∉ kws) : learnClusters inp r q t kws f k = f k := by
  induction kws generalizing f with
  | nil => rfl
  | cons a rest ih =>
    rw [learnClusters_cons, ih (fun hk => h (List.mem_cons_of_mem _ hk))]
    have hka : k ≠ a := fun he => h (he ▸ List.mem_cons_self a rest)
    simp [hka]

/-- Each extracted keyword's cluster is updated exactly once. -/
theorem learnClusters_apply_mem {inp r : String} {q t : Nat}
    {kws : List String} {f : String → List PatternEntry} {k : String}
    (hnd : kws.Nodup) (h : k ∈ kws) :
    learnClusters inp r q t kws f k = clusterStep inp r q t (f k) := by
  induction kws generalizing f with
  | nil => cases h
  | cons a rest ih =>
    obtain ⟨hna, hnd'⟩ := List.nodup_cons.mp hnd
    rw [learnClusters_cons]
    rcases List.mem_cons.mp h with rfl | hk
    · rw [learnClusters_apply_not_mem hna]
      simp
    · have hka : k ≠ a := fun he => hna (he ▸ hk)
      rw [ih hnd' hk]
      simp [hka]

/-- Every cluster after the keyword loop is either untouched or the output
of one `clusterStep`. -/
theorem learnClusters_apply_cases (inp r : String) (q t : Nat) (kws : List String)
    (f : String → List PatternEntry) (k : String) :
    learnClusters inp r q t kws f k = f k ∨
    ∃ l, learnClusters inp r q t kws f k = clusterStep inp r q t l := by
  induction kws generalizing f with
  | nil => exact Or.inl rfl
  | cons a rest ih =>
    rw [learnClusters_cons]
    rcases ih (fun k => if k = a then clusterStep inp r q t (f a) else f k) with he | ⟨l, hl⟩
    · by_cases hka : k = a
      · subst hka
        right
        exact ⟨f k, by rw [he]; simp⟩
      · left
        rw [he]
        simp [hka]
    · right
      exact ⟨l, hl⟩

theorem learnPattern_semanticClusters (input response : String) (q now : Nat) (m : Memory) :
    (learnPattern input response q now m).semanticClusters =
      learnClusters (jsToLower input) response q now (extractKeywords input)
        m.semanticClusters := by
  unfold learnPattern
  dsimp only
  split <;> rfl

theorem learnPattern_contextPairs (input response : String) (q now : Nat) (m : Memory) :
    (learnPattern input response q now m).contextPairs =
      if 60 ≤ q then
        (if 1000 < (updateEntryList (jsToLower input) response q now m.contextPairs).length
         then (sortByScoreDesc (updateEntryList (jsToLower input) response q now m.contextPairs)).take 1000
         else updateEntryList (jsToLower input) response q now m.contextPairs)
      else m.contextPairs := by
  unfold learnPattern
  dsimp only
  split <;> rfl

/-! ## The cap invariant -/

theorem clusterStep_length_le (inp r : String) (q t : Nat) (l : List PatternEntry) :
    (clusterStep inp r q t l).length ≤ 20 := by
  unfold clusterStep
  split
  · simp [List.length_take]
  · omega

theorem learnPattern_caps {m : Memory}
    (h1 : ∀ k, (m.semanticClusters k).length ≤ 20)
    (h2 : m.contextPairs.length ≤ 1000)
    (input response : String) (q now : Nat) :
    (∀ k, ((learnPattern input response q now m).semanticClusters k).length ≤ 20) ∧
    (learnPattern input response q now m).contextPairs.length ≤ 1000 := by
  constructor
  · intro k
    rw [learnPattern_semanticClusters]
    rcases learnClusters_apply_cases (jsToLower input) response q now
        (extractKeywords input) m.semanticClusters k with he | ⟨l, hl⟩
    · rw [he]; exact h1 k
    · rw [hl]; exact clusterStep_length_le _ _ _ _ _
  · rw [learnPattern_contextPairs]
    split
    · split
      · simp [List.length_take]
      · omega
    · exact h2

theorem applyLearnOps_cons (o : String × String × Nat × Nat)
    (rest : List (String × String × Nat × Nat)) (m : Memory) :
    applyLearnOps (o :: rest) m =
      applyLearnOps rest (learnPattern o.1 o.2.1 o.2.2.1 o.2.2.2 m) := rfl

theorem applyLearnOps_caps_of (ops : List (String × String × Nat × Nat)) :
    ∀ m : Memory, (∀ k, (m.semanticClusters k).length ≤ 20) →
      m.contextPairs.length ≤ 1000 →
      (∀ k, ((applyLearnOps ops m).semanticClusters k).length ≤ 20) ∧
      (applyLearnOps ops m).contextPairs.length ≤ 1000 := by
  induction ops with
  | nil => exact fun m hm1 hm2 => ⟨hm1, hm2⟩
  | cons o rest ih =>
    intro m hm1 hm2
    rw [applyLearnOps_cons]
    have h := learnPattern_caps hm1 hm2 o.1 o.2.1 o.2.2.1 o.2.2.2
    exact ih _ h.1 h.2

/-! ## Claim C3 -/

/-- C3: for every sequence of `learnPattern` calls starting from the empty
store, after each call every semantic cluster holds at most 20 entries and
`contextPairs` at most 1000; and whenever the sorted list is truncated, the
evicted entries (those beyond the kept elements) all score no higher
than any kept entry (`quality × confidence` order). -/
theorem cap_invariant :
    (∀ ops : List (String × String × Nat × Nat),
      (∀ k, ((applyLearnOps ops initialMemory).semanticClusters k).length ≤ 20) ∧
      (applyLearnOps ops initialMemory).contextPairs.length ≤ 1000) ∧
    (∀ (n : Nat) (l : List PatternEntry) (a b : PatternEntry),
      a ∈ (sortByScoreDesc l).drop n → b ∈ (sortByScoreDesc l).take n →
      score a ≤ score b) := by
  constructor
  · intro ops
    exact applyLearnOps_caps_of ops initialMemory
      (fun k => by simp [initialMemory]) (by simp [initialMemory])
  · intro n l a b ha hb
    exact (sorted_sortByScoreDesc l).rel_of_mem_take_of_mem_drop hb ha

/-- Witness for C3's eviction clause at a concrete two-entry list with cap 1:
the dropped entry scores below the kept one. -/
theorem cap_invariant_witness :
    score ⟨"b", "r", 10, 1, 0⟩ ≤ score ⟨"a", "r", 90, 1, 0⟩ :=
  cap_invariant.2 1 [⟨"a", "r", 90, 1, 0⟩, ⟨"b", "r", 10, 1, 0⟩]
    ⟨"b", "r", 10, 1, 0⟩ ⟨"a", "r", 90, 1, 0⟩ (by decide) (by decide)

/-! ## Claim C10 -/

/-- C10: `findBestResponse` never mutates the knowledge base — the whole
`globalMemory` aggregate (`contextPairs`, `semanticClusters`,
`qualityScores`, `stats`) is untouched for every input and state; only the
response cache and the metrics counters may change. -/
theorem findBestResponse_no_mutation (now : Nat) (input : String) (st : ChatState) :
    ((findBestResponse now input st).2).memory = st.memory := by
  unfold findBestResponse
  rcases hc : cacheGet now input st.cache with ⟨o, cache1⟩
  cases o with
  | some r => rfl
  | none =>
    dsimp only
    repeat' split
    all_goals rfl

/-! ## Claim C7 -/

/-- C7 counterexample: a parsed snapshot whose `contextPairs` is the number
`5` (not an array) and whose `semanticClusters` is the number `7` (not an
object) is nevertheless ACCEPTED by `loadMemory`'s truthiness check and
replaces the defaults, contradicting "not structurally valid → rejected". -/
theorem snapshot_load_validation_cex :
    loadMemoryValidate (some corruptSnapshotJson) defaultSnapshotJson = corruptSnapshotJson ∧
    (jsonLookup corruptSnapshotJson "contextPairs").map jsonIsArr = some false ∧
    (jsonLookup corruptSnapshotJson "semanticClusters").map jsonIsObj = some false ∧
    (jsonLookup defaultSnapshotJson "contextPairs").map jsonIsArr = some true ∧
    loadMemoryValidate (some corruptSnapshotJson) defaultSnapshotJson ≠ defaultSnapshotJson := by
  refine ⟨rfl, rfl, rfl, rfl, fun h => ?_⟩
  have h2 : (some false : Option Bool) = some true :=
    congrArg (fun j => (jsonLookup j "contextPairs").map jsonIsArr) h
  simp at h2

/-- C7 amended: startup never crashes on a bad snapshot — a `JSON.parse`
failure keeps the default memory, and a parsed snapshot replaces the
defaults iff its `stats`, `contextPairs` and `semanticClusters` fields are
all present and truthy (mere truthiness: no structural validation of their
shapes is performed, and the `stats` field is also required, unlike what
the spec states). -/
theorem snapshot_load_validation (j d : Json) :
    loadMemoryValidate none d = d ∧
    ((jsTruthy (jsonLookup j "stats") && jsTruthy (jsonLookup j "contextPairs") &&
      jsTruthy (jsonLookup j "semanticClusters")) = true →
      loadMemoryValidate (some j) d = j) ∧
    ((jsTruthy (jsonLookup j "stats") && jsTruthy (jsonLookup j "contextPairs") &&
      jsTruthy (jsonLookup j "semanticClusters")) = false →
      loadMemoryValidate (some j) d = d) := by
  refine ⟨rfl, fun h => ?_, fun h => ?_⟩
  · show (if _ = true then j else d) = j
    rw [if_pos h]
  · show (if _ = true then j else d) = d
    rw [if_neg (by simp [h])]

/-- Witness for C7 on concrete snapshots: the truthy-but-corrupt snapshot is
installed, while an empty object is rejected in favour of the defaults. -/
theorem snapshot_load_validation_witness :
    loadMemoryValidate (some corruptSnapshotJson) defaultSnapshotJson = corruptSnapshotJson ∧
    loadMemoryValidate (some (Json.obj [])) defaultSnapshotJson = defaultSnapshotJson :=
  ⟨(snapshot_load_validation corruptSnapshotJson defaultSnapshotJson).2.1 (by decide),
   (snapshot_load_validation (Json.obj []) defaultSnapshotJson).2.2 (by decide)⟩

/-! ## Claim C8 -/

/-- C8 counterexample: a failing write of the secondary durable file mirror
is rethrown to `saveMemory`'s caller (and the remote backends are then never
launched), contradicting "never thrown to the caller" for that backend. -/
theorem backend_failure_isolation_cex :
    (saveMemory true false true true).thrown = true ∧
    (saveMemory true false true true).primaryWritten = true ∧
    (saveMemory true false true true).remotesLaunched = false := by decide

/-- C8 amended: failures of the remote key-value store or the relational
store are logged as warnings, never thrown, and never block or undo the
primary (or durable) file write; but a failure of the secondary durable
file mirror IS rethrown to the caller (after the primary write completed). -/
theorem backend_failure_isolation : ∀ pgOk replitOk : Bool,
    ((saveMemory true true pgOk replitOk).thrown = false ∧
     (saveMemory true true pgOk replitOk).primaryWritten = true ∧
     (saveMemory true true pgOk replitOk).durableWritten = true ∧
     ((saveMemory true true pgOk replitOk).warnings = 0 ↔ pgOk = true ∧ replitOk = true)) ∧
    ((saveMemory true false pgOk replitOk).primaryWritten = true ∧
     (saveMemory true false pgOk replitOk).thrown = true) := by decide

/-! ## Claim C9 -/

/-- C9 counterexample: the garbage path mutates the knowledge base's `stats`
(it increments `stats.garbageFiltered`), so "stats are the same before and
after handling the request" fails. -/
theorem garbage_fixed_response_cex :
    (handleChat (fun _ => true) false 0 0 "default" "spam" initialChatState).state.memory.stats ≠
      initialChatState.memory.stats := by decide

/-- C9 amended: a chat request whose cleaned message is empty or classified
as garbage gets the fixed fallback reply, and no mutation is applied to
`contextPairs`, `semanticClusters` or `qualityScores`; `stats` is unchanged
except that `garbageFiltered` is incremented by one. -/
theorem garbage_fixed_response (g : String → Bool) (forceSync : Bool)
    (rand now : Nat) (sessionId cleaned : String) (st : ChatState)
    (h : cleaned = "" ∨ g cleaned = true) :
    (handleChat g forceSync rand now sessionId cleaned st).response = garbageResponse ∧
    (handleChat g forceSync rand now sessionId cleaned st).state.memory.contextPairs
      = st.memory.contextPairs ∧
    (handleChat g forceSync rand now sessionId cleaned st).state.memory.semanticClusters
      = st.memory.semanticClusters ∧
    (handleChat g forceSync rand now sessionId cleaned st).state.memory.qualityScores
      = st.memory.qualityScores ∧
    (handleChat g forceSync rand now sessionId cleaned st).state.memory.stats
      = { st.memory.stats with garbageFiltered := st.memory.stats.garbageFiltered + 1 } := by
  have hcond : (decide (cleaned = "") || g cleaned) = true := by
    rcases h with h | h <;> simp [h]
  unfold handleChat
  rw [if_pos hcond]
  exact ⟨rfl, rfl, rfl, rfl, rfl⟩

/-- Witness for C9 at a concrete garbage request. -/
theorem garbage_fixed_response_witness :
    (handleChat (fun _ => true) false 0 0 "default" "spam" initialChatState).response
      = garbageResponse ∧
    (handleChat (fun _ => true) false 0 0 "default" "spam" initialChatState).state.memory.stats
      = { initialChatState.memory.stats with
          garbageFiltered := initialChatState.memory.stats.garbageFiltered + 1 } := by
  have h := garbage_fixed_response (fun _ => true) false 0 0 "default" "spam"
    initialChatState (Or.inr rfl)
  exact ⟨h.1, h.2.2.2.2⟩

/-! ## Claim C4: the save coordinator -/

theorem saveAux_initial : SaveAux initialSaveState := by
  constructor <;> simp [initialSaveState]

theorem saveAux_step {s : SaveState} (h : SaveAux s) (e : SaveEvent) :
    SaveAux (saveStep s e) := by
  obtain ⟨h1, h2⟩ := h
  cases e with
  | mutate => exact ⟨h1, h2⟩
  | queueSave =>
    by_cases hs : s.scheduled
    · have hstep : saveStep s .queueSave = s := by simp only [saveStep, if_pos hs]
      rw [hstep]; exact ⟨h1, h2⟩
    · have hstep : saveStep s .queueSave
          = { s with scheduled := true, immediates := s.immediates + 1 } := by
        simp only [saveStep, if_neg hs]
      rw [hstep]
      exact ⟨fun _ => show 0 < s.immediates + 1 + s.chain by omega, h2⟩
  | fireImmediate =>
    rcases hi : s.immediates with _ | n
    · have hstep : saveStep s .fireImmediate = s := by simp only [saveStep, hi]
      rw [hstep]; exact ⟨h1, h2⟩
    · have hstep : saveStep s .fireImmediate
          = { s with immediates := n, chain := s.chain + 1 } := by
        simp only [saveStep, hi]
      rw [hstep]
      exact ⟨fun _ => show 0 < n + (s.chain + 1) by omega, h2⟩
  | startJob =>
    rcases hc : s.chain with _ | c
    · have hstep : saveStep s .startJob = s := by simp only [saveStep, hc]
      rw [hstep]; exact ⟨h1, h2⟩
    · rcases hr : s.running with _ | ⟨v, rest⟩
      · have hstep : saveStep s .startJob
            = { s with chain := c, scheduled := false, running := [s.ver],
                       serialized := s.serialized ++ [s.ver] } := by
          simp only [saveStep, hc, hr]
        rw [hstep]
        exact ⟨fun hsc => (nomatch hsc), Nat.le_refl 1⟩
      · have hstep : saveStep s .startJob = s := by simp only [saveStep, hc, hr]
        rw [hstep]; exact ⟨h1, h2⟩
  | finishOk =>
    rcases hr : s.running with _ | ⟨v, rest⟩
    · have hstep : saveStep s .finishOk = s := by simp only [saveStep, hr]
      rw [hstep]; exact ⟨h1, h2⟩
    · have hstep : saveStep s .finishOk = { s with running := [], file := some v } := by
        simp only [saveStep, hr]
      rw [hstep]
      exact ⟨h1, Nat.zero_le 1⟩
  | finishFail =>
    have hstep : saveStep s .finishFail = { s with running := [], scheduled := false } := rfl
    rw [hstep]
    exact ⟨fun hsc => (nomatch hsc), Nat.zero_le 1⟩

theorem saveAux_run {s : SaveState} (h : SaveAux s) (evs : List SaveEvent) :
    SaveAux (runEvents s evs) := by
  induction evs generalizing s with
  | nil => exact h
  | cons e rest ih => exact ih (saveAux_step h e)

theorem savePending_step {v : Nat} {s : SaveState} (ha : SaveAux s)
    (h : SavePending v s) (e : SaveEvent) : SavePending v (saveStep s e) := by
  obtain ⟨hv, hp⟩ := h
  cases e with
  | mutate => exact ⟨Nat.le_succ_of_le hv, hp⟩
  | queueSave =>
    by_cases hs : s.scheduled
    · have hstep : saveStep s .queueSave = s := by simp only [saveStep, if_pos hs]
      rw [hstep]; exact ⟨hv, hp⟩
    · have hstep : saveStep s .queueSave
          = { s with scheduled := true, immediates := s.immediates + 1 } := by
        simp only [saveStep, if_neg hs]
      rw [hstep]
      exact ⟨hv, Or.inr (Or.inl rfl)⟩
  | fireImmediate =>
    rcases hi : s.immediates with _ | n
    · have hstep : saveStep s .fireImmediate = s := by simp only [saveStep, hi]
      rw [hstep]; exact ⟨hv, hp⟩
    · have hstep : saveStep s .fireImmediate
          = { s with immediates := n, chain := s.chain + 1 } := by
        simp only [saveStep, hi]
      rw [hstep]
      refine ⟨hv, ?_⟩
      rcases hp with hw | hs | hi2 | hc2
      · exact Or.inl hw
      · exact Or.inr (Or.inl hs)
      · exact Or.inr (Or.inr (Or.inr (show 0 < s.chain + 1 by omega)))
      · exact Or.inr (Or.inr (Or.inr (show 0 < s.chain + 1 by omega)))
  | startJob =>
    rcases hc : s.chain with _ | c
    · have hstep : saveStep s .startJob = s := by simp only [saveStep, hc]
      rw [hstep]; exact ⟨hv, hp⟩
    · rcases hr : s.running with _ | ⟨w, rest⟩
      · have hstep : saveStep s .startJob
            = { s with chain := c, scheduled := false, running := [s.ver],
                       serialized := s.serialized ++ [s.ver] } := by
          simp only [saveStep, hc, hr]
        rw [hstep]
        exact ⟨hv, Or.inl ⟨s.ver, show s.ver ∈ s.serialized ++ [s.ver] by simp, hv⟩⟩
      · have hstep : saveStep s .startJob = s := by simp only [saveStep, hc, hr]
        rw [hstep]; exact ⟨hv, hp⟩
  | finishOk =>
    rcases hr : s.running with _ | ⟨w, rest⟩
    · have hstep : saveStep s .finishOk = s := by simp only [saveStep, hr]
      rw [hstep]; exact ⟨hv, hp⟩
    · have hstep : saveStep s .finishOk = { s with running := [], file := some w } := by
        simp only [saveStep, hr]
      rw [hstep]; exact ⟨hv, hp⟩
  | finishFail =>
    have hstep : saveStep s .finishFail = { s with running := [], scheduled := false } := rfl
    rw [hstep]
    refine ⟨hv, ?_⟩
    rcases hp with hw | hs | hi2 | hc2
    · exact Or.inl hw
    · have hic := ha.1 hs
      by_cases him : 0 < s.immediates
      · exact Or.inr (Or.inr (Or.inl him))
      · exact Or.inr (Or.inr (Or.inr (show 0 < s.chain by omega)))
    · exact Or.inr (Or.inr (Or.inl hi2))
    · exact Or.inr (Or.inr (Or.inr hc2))

theorem savePending_run {v : Nat} {s : SaveState} (ha : SaveAux s)
    (h : SavePending v s) (evs : List SaveEvent) :
    SavePending v (runEvents s evs) := by
  induction evs generalizing s with
  | nil => exact h
  | cons e rest ih => exact ih (saveAux_step ha e) (savePending_step ha h e)

/-- C4: (i) the promise chain keeps at most one save in flight at any time;
(ii) no save request is silently dropped — after any `queueSave` issued at
store version `v`, any complete run of the scheduler (no flag set, no
pending immediate, no chained or running job left) contains a save that
serialized a store version at least `v`, i.e. one that saw every mutation
made before the request; (iii) the shutdown flush (final async save then
sync fallback) persists the in-memory version at exit whenever at least one
of the two writes succeeds. -/
theorem save_coordinator :
    (∀ evs : List SaveEvent, (runEvents initialSaveState evs).running.length ≤ 1) ∧
    (∀ pre post : List SaveEvent,
      Quiescent (runEvents (saveStep (runEvents initialSaveState pre) .queueSave) post) →
      ∃ w ∈ (runEvents (saveStep (runEvents initialSaveState pre) .queueSave) post).serialized,
        (runEvents initialSaveState pre).ver ≤ w) ∧
    (∀ (s : SaveState) (asyncOk syncOk : Bool), asyncOk = true ∨ syncOk = true →
      (gracefulShutdown asyncOk syncOk s).file = some s.ver) := by
  refine ⟨?_, ?_, ?_⟩
  · intro evs
    exact (saveAux_run saveAux_initial evs).2
  · intro pre post hq
    have ha0 : SaveAux (runEvents initialSaveState pre) := saveAux_run saveAux_initial pre
    have hp1 : SavePending (runEvents initialSaveState pre).ver
        (saveStep (runEvents initialSaveState pre) .queueSave) := by
      by_cases hs : (runEvents initialSaveState pre).scheduled
      · simp only [saveStep, if_pos hs]
        exact ⟨Nat.le_refl _, Or.inr (Or.inl hs)⟩
      · simp only [saveStep, if_neg hs]
        exact ⟨Nat.le_refl _, Or.inr (Or.inl rfl)⟩
    have hp2 := savePending_run (saveAux_step ha0 .queueSave) hp1 post
    obtain ⟨hsch, him, hch, _⟩ := hq
    rcases hp2.2 with hw | hs | hi | hc
    · exact hw
    · rw [hsch] at hs; cases hs
    · omega
    · omega
  · intro s aOk sOk h
    unfold gracefulShutdown
    rcases h with rfl | rfl
    · by_cases hs : sOk <;> simp [hs]
    · simp

/-- Witness for C4 at a concrete run: mutate, request a save, let the
immediate fire, start and finish the save; and a concrete shutdown flush. -/
theorem save_coordinator_witness :
    (∃ w ∈ (runEvents (saveStep (runEvents initialSaveState [SaveEvent.mutate]) .queueSave)
        [SaveEvent.fireImmediate, SaveEvent.startJob, SaveEvent.finishOk]).serialized,
      (runEvents initialSaveState [SaveEvent.mutate]).ver ≤ w) ∧
    (gracefulShutdown true false ⟨5, false, 0, 0, [], [], none⟩).file = some 5 :=
  ⟨save_coordinator.2.1 [SaveEvent.mutate]
      [SaveEvent.fireImmediate, SaveEvent.startJob, SaveEvent.finishOk] (by decide),
   save_coordinator.2.2 ⟨5, false, 0, 0, [], [], none⟩ true false (Or.inl rfl)⟩

/-! ## Claim C5 -/

/-- Membership in the aggregated candidate list of `findBestResponse`. -/
theorem mem_foldl_clusters (f : String → List PatternEntry) (kws : List String)
    (acc : List PatternEntry) (c : PatternEntry) :
    (c ∈ kws.foldl (fun acc k => acc ++ f k) acc) ↔ c ∈ acc ∨ ∃ k ∈ kws, c ∈ f k := by
  induction kws generalizing acc with
  | nil => simp
  | cons a rest ih =>
    rw [List.foldl_cons, ih]
    simp only [List.mem_append, List.exists_mem_cons_iff]
    tauto

/-- C5 amended: a query sharing zero keywords with every stored pattern gets
"no match" (`null`) — provided the response cache misses and no
`contextPairs` entry exactly matches the lowercased query (the exact-match
path does not consult keywords, and a keyword-free query can hit it). -/
theorem zero_overlap_no_match (now : Nat) (input : String) (st : ChatState)
    (hcache : (cacheGet now input st.cache).1 = none)
    (hexact : ∀ p ∈ st.memory.contextPairs, p.input ≠ jsToLower input)
    (hdisjC : ∀ kk : String, ∀ p ∈ st.memory.semanticClusters kk,
        ∀ w ∈ extractKeywords input, w ∉ extractKeywords p.input)
    (_hdisjP : ∀ p ∈ st.memory.contextPairs,
        ∀ w ∈ extractKeywords input, w ∉ extractKeywords p.input) :
    (findBestResponse now input st).1 = none := by
  unfold findBestResponse
  have hc : cacheGet now input st.cache = (none, (cacheGet now input st.cache).2) := by
    rcases h : cacheGet now input st.cache with ⟨o, cc⟩
    rw [h] at hcache
    simp only at hcache
    rw [hcache]
  rw [hc]
  dsimp only
  have hfind : st.memory.contextPairs.find?
      (fun p => decide (p.input = jsToLower input)) = none := by
    rw [List.find?_eq_none]
    intro p hp
    simp [hexact p hp]
  rw [hfind]
  dsimp only
  split
  · rfl
  · rcases hh : (((extractKeywords input).foldl
        (fun acc k => acc ++ st.memory.semanticClusters k) []).map
          (fun c => (c, relevance (extractKeywords input) c))).insertionSort relGe with _ | ⟨top, rest⟩
    · rfl
    · dsimp only [List.head?]
      have htop : top ∈ (((extractKeywords input).foldl
          (fun acc k => acc ++ st.memory.semanticClusters k) []).map
            (fun c => (c, relevance (extractKeywords input) c))) := by
        have hmem : top ∈ (((extractKeywords input).foldl
            (fun acc k => acc ++ st.memory.semanticClusters k) []).map
              (fun c => (c, relevance (extractKeywords input) c))).insertionSort relGe := by
          rw [hh]; exact List.mem_cons_self _ _
        exact (List.perm_insertionSort relGe _).subset hmem
      obtain ⟨c, hcmem, hctop⟩ := List.mem_map.mp htop
      obtain ⟨kk, hkk, hcc⟩ :=
        ((mem_foldl_clusters st.memory.semanticClusters (extractKeywords input) [] c).mp
          hcmem).resolve_left (by simp)
      have hover : (extractKeywords input).filter
          (fun k => (extractKeywords c.input).contains k) = [] := by
        rw [List.filter_eq_nil_iff]
        intro w hw
        have hnotmem := hdisjC kk c hcc w hw
        simpa using hnotmem
      have hrel : ¬ fracLt ⟨30, 1⟩ (relevance (extractKeywords input) c) := by
        unfold fracLt relevance
        dsimp only
        rw [hover]
        simp
      rw [← hctop]
      dsimp only
      rw [if_neg hrel]

/-- Witness for C5 at the empty store and cache: any query misses. -/
theorem zero_overlap_no_match_witness :
    (findBestResponse 0 "hello there" initialChatState).1 = none := by
  have h := zero_overlap_no_match 0 "hello there" initialChatState
    (by decide)
    (fun p hp => absurd hp (List.not_mem_nil p))
    (fun kk p hp => absurd hp (List.not_mem_nil p))
    (fun p hp => absurd hp (List.not_mem_nil p))
  exact h

/-- C5 counterexample: the query `"ok it is"` has an empty keyword set, so
it shares zero keywords with every stored pattern (there are none in any
cluster, and the only context pair's keyword set is also empty), yet
`findBestResponse` answers it via the exact-match path instead of
returning "no match". -/
theorem zero_overlap_no_match_cex :
    (∀ kk : String, ∀ p ∈ (learnPattern "ok it is" "yes" 70 5 initialMemory).semanticClusters kk,
        ∀ w ∈ extractKeywords "ok it is", w ∉ extractKeywords p.input) ∧
    (∀ p ∈ (learnPattern "ok it is" "yes" 70 5 initialMemory).contextPairs,
        ∀ w ∈ extractKeywords "ok it is", w ∉ extractKeywords p.input) ∧
    (findBestResponse 5 "ok it is"
      { initialChatState with
        memory := learnPattern "ok it is" "yes" 70 5 initialMemory }).1 = some "yes" := by
  refine ⟨?_, ?_, by decide⟩
  · intro kk p hp
    have hempty : (learnPattern "ok it is" "yes" 70 5 initialMemory).semanticClusters kk = [] := by
      rw [learnPattern_semanticClusters]
      have hkw : extractKeywords "ok it is" = [] := by decide
      rw [hkw]
      rfl
    rw [hempty] at hp
    exact absurd hp (List.not_mem_nil p)
  · intro p hp w hw
    have hkw : extractKeywords "ok it is" = [] := by decide
    rw [hkw] at hw
    exact absurd hw (List.not_mem_nil w)

/-! ## Claims C2 and C6 -/

/-- A keyword of the input gets its cluster rewritten by one `clusterStep`. -/
theorem learnPattern_cluster_at {input response : String} {q now : Nat}
    {m : Memory} {k : String} (hk : k ∈ extractKeywords input) :
    (learnPattern input response q now m).semanticClusters k =
      clusterStep (jsToLower input) response q now (m.semanticClusters k) := by
  rw [learnPattern_semanticClusters]
  exact learnClusters_apply_mem (extractKeywords_nodup input) hk

/-- In the high-quality branch, `contextPairs` within the cap is just the
find/reinforce/replace/insert result (no sort, no truncation). -/
theorem learnPattern_pairs_le {input response : String} {q now : Nat} {m : Memory}
    (hq : 60 ≤ q)
    (hlen : (updateEntryList (jsToLower input) response q now m.contextPairs).length ≤ 1000) :
    (learnPattern input response q now m).contextPairs =
      updateEntryList (jsToLower input) response q now m.contextPairs := by
  rw [learnPattern_contextPairs, if_pos hq, if_neg (by omega)]

/-- Below quality 60 the `contextPairs` list is not even examined. -/
theorem learnPattern_pairs_lt60 {input response : String} {q now : Nat} {m : Memory}
    (hq : q < 60) :
    (learnPattern input response q now m).contextPairs = m.contextPairs := by
  rw [learnPattern_contextPairs, if_neg (by omega)]

/-- C2 amended: for the unique examined entry `E` (same lowercased input,
different response) in a cluster of one of the input's keywords, the call
replaces it iff `q > E.quality + 10` or `age(E) > 30` days, and otherwise
leaves every entry unchanged (the cluster is merely re-sorted).  For a
`ContextPairs` entry the same dichotomy applies only when the new quality
is at least 60; below 60 the pair list is left entirely unchanged even
when the replacement condition holds. -/
theorem replacement_policy (input response : String) (q now : Nat) (m : Memory)
    (E : PatternEntry) (k : String) (hresp : E.response ≠ response) :
    (k ∈ extractKeywords input →
     ExactEntry (jsToLower input) E (m.semanticClusters k) →
     (m.semanticClusters k).length ≤ 20 →
     ((shouldReplace q now E = true →
        ExactEntry (jsToLower input) (freshEntry (jsToLower input) response q now)
          ((learnPattern input response q now m).semanticClusters k)) ∧
      (shouldReplace q now E = false →
        ((learnPattern input response q now m).semanticClusters k).Perm
          (m.semanticClusters k) ∧
        ExactEntry (jsToLower input) E
          ((learnPattern input response q now m).semanticClusters k)))) ∧
    (ExactEntry (jsToLower input) E m.contextPairs →
     m.contextPairs.length ≤ 1000 →
     ((60 ≤ q → shouldReplace q now E = true →
        ExactEntry (jsToLower input) (freshEntry (jsToLower input) response q now)
          (learnPattern input response q now m).contextPairs) ∧
      (60 ≤ q → shouldReplace q now E = false →
        (learnPattern input response q now m).contextPairs = m.contextPairs) ∧
      (q < 60 →
        (learnPattern input response q now m).contextPairs = m.contextPairs))) := by
  constructor
  · intro hk hEE hlen
    rw [learnPattern_cluster_at hk]
    exact ⟨fun hrep => (clusterStep_replace hEE hresp hrep hlen).1,
           fun hrep => clusterStep_keep hEE hresp hrep hlen⟩
  · intro hEE hlen
    refine ⟨fun hq hrep => ?_, fun hq hrep => ?_, fun hq => learnPattern_pairs_lt60 hq⟩
    · obtain ⟨l1, l2, hdec, h1, h2, hEinp, hupd⟩ :=
        updateEntryList_found (q := q) (t := now) (r := response) hEE.1 hEE.2
      rw [if_neg hresp, if_pos hrep] at hupd
      have hll : (updateEntryList (jsToLower input) response q now m.contextPairs).length
          ≤ 1000 := by
        have h3 := hlen
        rw [hdec] at h3
        rw [hupd]
        simpa using h3
      rw [learnPattern_pairs_le hq hll, hupd]
      exact exactEntry_append_decomp h1 h2 (by simp [hasInput, freshEntry_input])
    · obtain ⟨l1, l2, hdec, h1, h2, hEinp, hupd⟩ :=
        updateEntryList_found (q := q) (t := now) (r := response) hEE.1 hEE.2
      rw [if_neg hresp] at hupd
      simp only [hrep, Bool.false_eq_true, if_false] at hupd
      have hid : updateEntryList (jsToLower input) response q now m.contextPairs
          = m.contextPairs := by rw [hupd, hdec]
      rw [learnPattern_pairs_le hq (by rw [hid]; exact hlen), hid]

/-- Witness for C2 on the spec's own example: an entry of quality 50 aged
one day is not replaced at quality 55 but is replaced at quality 61
(cluster path; quality 50 never reaches `ContextPairs`). -/
theorem replacement_policy_witness :
    ExactEntry (jsToLower "zebra") (freshEntry (jsToLower "zebra") "r2" 61 86400000)
      ((learnPattern "zebra" "r2" 61 86400000
        (learnPattern "zebra" "r1" 50 0 initialMemory)).semanticClusters "zebra") ∧
    ExactEntry (jsToLower "zebra") ⟨"zebra", "r1", 50, 1, 0⟩
      ((learnPattern "zebra" "r2" 55 86400000
        (learnPattern "zebra" "r1" 50 0 initialMemory)).semanticClusters "zebra") := by
  constructor
  · exact ((replacement_policy "zebra" "r2" 61 86400000
      (learnPattern "zebra" "r1" 50 0 initialMemory) ⟨"zebra", "r1", 50, 1, 0⟩ "zebra"
      (by decide)).1 (by decide) (by decide) (by decide)).1 (by decide)
  · exact (((replacement_policy "zebra" "r2" 55 86400000
      (learnPattern "zebra" "r1" 50 0 initialMemory) ⟨"zebra", "r1", 50, 1, 0⟩ "zebra"
      (by decide)).1 (by decide) (by decide) (by decide)).2 (by decide)).2

/-- C2 counterexample: a `ContextPairs` entry older than 30 days is NOT
replaced when the new quality is below 60, although the claimed condition
(`age > 30 days`) holds: the entry `("zebra", "r1")` of quality 70 learned
at time 0 survives `learnPattern("zebra", "r2", 55)` at day 31 unchanged
(while the cluster copy IS replaced). -/
theorem replacement_policy_cex :
    shouldReplace 55 2678400000 ⟨"zebra", "r1", 70, 1, 0⟩ = true ∧
    (learnPattern "zebra" "r1" 70 0 initialMemory).contextPairs
      = [⟨"zebra", "r1", 70, 1, 0⟩] ∧
    (learnPattern "zebra" "r2" 55 2678400000
      (learnPattern "zebra" "r1" 70 0 initialMemory)).contextPairs
      = [⟨"zebra", "r1", 70, 1, 0⟩] ∧
    (learnPattern "zebra" "r2" 55 2678400000
      (learnPattern "zebra" "r1" 70 0 initialMemory)).semanticClusters "zebra"
      = [⟨"zebra", "r2", 55, 1, 2678400000⟩] := by decide

/-- C6 amended: when `learnPattern` reinforces an association at quality
at least 60 and the association's copies are in sync beforehand (every
cluster of the input's keywords and `ContextPairs` hold exactly the entry
`E` for the input, with the same response), the reinforcement is applied
to every copy: afterwards each of those lists holds exactly
`reinforce now E`, so all copies carry the same confidence and quality. -/
theorem reinforcement_all_copies (input response : String) (q now : Nat) (m : Memory)
    (E : PatternEntry)
    (hq : 60 ≤ q) (hresp : E.response = response)
    (hcl : ∀ k ∈ extractKeywords input,
        ExactEntry (jsToLower input) E (m.semanticClusters k) ∧
        (m.semanticClusters k).length ≤ 20)
    (hcp : ExactEntry (jsToLower input) E m.contextPairs ∧
        m.contextPairs.length ≤ 1000) :
    (∀ k ∈ extractKeywords input,
        ExactEntry (jsToLower input) (reinforce now E)
          ((learnPattern input response q now m).semanticClusters k)) ∧
    ExactEntry (jsToLower input) (reinforce now E)
      (learnPattern input response q now m).contextPairs := by
  constructor
  · intro k hk
    rw [learnPattern_cluster_at hk]
    exact (clusterStep_reinforce (hcl k hk).1 hresp (hcl k hk).2).1
  · obtain ⟨l1, l2, hdec, h1, h2, hEinp, hupd⟩ :=
      updateEntryList_found (q := q) (t := now) (r := response) hcp.1.1 hcp.1.2
    rw [if_pos hresp] at hupd
    have hll : (updateEntryList (jsToLower input) response q now m.contextPairs).length
        ≤ 1000 := by
      have h3 := hcp.2
      rw [hdec] at h3
      rw [hupd]
      simpa using h3
    rw [learnPattern_pairs_le hq hll, hupd]
    exact exactEntry_append_decomp h1 h2 (by simp [hasInput, reinforce_input, hEinp])

/-- Witness for C6 at a concrete reinforcement: both the cluster copy and
the context-pair copy of `("zebra", "r")` move to confidence 2, quality 72. -/
theorem reinforcement_all_copies_witness :
    (∀ k ∈ extractKeywords "zebra",
        ExactEntry (jsToLower "zebra") (reinforce 1 ⟨"zebra", "r", 70, 1, 0⟩)
          ((learnPattern "zebra" "r" 70 1
            (learnPattern "zebra" "r" 70 0 initialMemory)).semanticClusters k)) ∧
    ExactEntry (jsToLower "zebra") (reinforce 1 ⟨"zebra", "r", 70, 1, 0⟩)
      (learnPattern "zebra" "r" 70 1
        (learnPattern "zebra" "r" 70 0 initialMemory)).contextPairs :=
  reinforcement_all_copies "zebra" "r" 70 1 (learnPattern "zebra" "r" 70 0 initialMemory)
    ⟨"zebra", "r", 70, 1, 0⟩ (by decide) (by decide) (by decide) (by decide)

set_option maxRecDepth 8000 in
/-- C6 counterexample: reinforcing at quality 50 (the same input and
response) updates every cluster copy but not the canonical `ContextPairs`
copy, leaving the copies with different confidences, contrary to the
claim that reinforcement reaches every copy. -/
theorem reinforcement_all_copies_cex :
    ∃ e ∈ (learnPattern "zebra" "r" 50 1
        (learnPattern "zebra" "r" 70 0 initialMemory)).semanticClusters "zebra",
    ∃ e2 ∈ (learnPattern "zebra" "r" 50 1
        (learnPattern "zebra" "r" 70 0 initialMemory)).contextPairs,
      e.input = e2.input ∧ e.response = e2.response ∧
      e.confidence ≠ e2.confidence := by decide

/-! ## Claim C1 -/

theorem ExactEntry.toUnique {inp r : String} {cv qv tv : Nat} {l : List PatternEntry}
    (h : ExactEntry inp ⟨inp, r, qv, cv, tv⟩ l) : UniqueEntry inp r cv qv l := by
  refine ⟨h.1, fun e he hm => ?_⟩
  rw [h.2 e he hm]
  exact ⟨rfl, rfl, rfl⟩

theorem applyLearnTimes_cons (input response : String) (q t : Nat) (ts : List Nat)
    (m : Memory) :
    applyLearnTimes input response q (t :: ts) m =
      applyLearnTimes input response q ts (learnPattern input response q t m) := rfl

/-- First call on a store with no entry for the input and room below the
caps: the fresh entry is the unique one everywhere it belongs. -/
theorem learnPattern_insert_base (input response : String) (q now : Nat) (m : Memory)
    (hq : q ≤ 100)
    (hcl : ∀ k : String, ∀ e ∈ m.semanticClusters k, e.input ≠ jsToLower input)
    (hlen : ∀ k ∈ extractKeywords input, (m.semanticClusters k).length < 20)
    (hcp : ∀ e ∈ m.contextPairs, e.input ≠ jsToLower input)
    (hcplen : m.contextPairs.length < 1000) :
    (∀ k ∈ extractKeywords input,
        ExactEntry (jsToLower input)
          ⟨jsToLower input, response, min 100 (q + 2 * (1 - 1)), 1, now⟩
          ((learnPattern input response q now m).semanticClusters k) ∧
        ((learnPattern input response q now m).semanticClusters k).length ≤ 20) ∧
    (60 ≤ q →
        ExactEntry (jsToLower input)
          ⟨jsToLower input, response, min 100 (q + 2 * (1 - 1)), 1, now⟩
          (learnPattern input response q now m).contextPairs ∧
        (learnPattern input response q now m).contextPairs.length ≤ 1000) := by
  have hfresh : freshEntry (jsToLower input) response q now =
      ⟨jsToLower input, response, min 100 (q + 2 * (1 - 1)), 1, now⟩ := by
    unfold freshEntry
    simp only [PatternEntry.mk.injEq, true_and, and_true]
    omega
  constructor
  · intro k hk
    rw [learnPattern_cluster_at hk]
    have hnone : ∀ e ∈ m.semanticClusters k, hasInput (jsToLower input) e = false := by
      intro e he
      simp [hasInput, hcl k e he]
    have h := clusterStep_insert (r := response) (q := q) (t := now) hnone (hlen k hk)
    rw [hfresh] at h
    refine ⟨h.1, ?_⟩
    have hb := h.2
    have hl := hlen k hk
    omega
  · intro hq60
    have hnone : ∀ e ∈ m.contextPairs, hasInput (jsToLower input) e = false := by
      intro e he
      simp [hasInput, hcp e he]
    have hupd := updateEntryList_insert (q := q) (t := now) (r := response) hnone
    have hulen : (updateEntryList (jsToLower input) response q now m.contextPairs).length
        ≤ 1000 := by
      rw [hupd]
      simp only [List.length_append, List.length_cons, List.length_nil]
      omega
    rw [learnPattern_pairs_le hq60 hulen, hupd, hfresh]
    refine ⟨?_, ?_⟩
    · exact exactEntry_append_decomp hnone (by simp) (by simp [hasInput])
    · simp only [List.length_append, List.length_cons, List.length_nil]
      omega

/-- One reinforcement step of the repeated-learning invariant: confidence
`j` at quality `min 100 (q + 2(j-1))` becomes confidence `j + 1` at quality
`min 100 (q + 2j)` in every copy. -/
theorem learnPattern_repeat_step (input response : String) (q t0 now : Nat)
    (m : Memory) (j : Nat) (hj : 1 ≤ j)
    (hcl : ∀ k ∈ extractKeywords input,
        ExactEntry (jsToLower input)
          ⟨jsToLower input, response, min 100 (q + 2 * (j - 1)), j, t0⟩
          (m.semanticClusters k) ∧ (m.semanticClusters k).length ≤ 20)
    (hcp : 60 ≤ q →
        ExactEntry (jsToLower input)
          ⟨jsToLower input, response, min 100 (q + 2 * (j - 1)), j, t0⟩
          m.contextPairs ∧ m.contextPairs.length ≤ 1000) :
    (∀ k ∈ extractKeywords input,
        ExactEntry (jsToLower input)
          ⟨jsToLower input, response, min 100 (q + 2 * (j + 1 - 1)), j + 1, now⟩
          ((learnPattern input response q now m).semanticClusters k) ∧
        ((learnPattern input response q now m).semanticClusters k).length ≤ 20) ∧
    (60 ≤ q →
        ExactEntry (jsToLower input)
          ⟨jsToLower input, response, min 100 (q + 2 * (j + 1 - 1)), j + 1, now⟩
          (learnPattern input response q now m).contextPairs ∧
        (learnPattern input response q now m).contextPairs.length ≤ 1000) := by
  have hrein : reinforce now
      (⟨jsToLower input, response, min 100 (q + 2 * (j - 1)), j, t0⟩ : PatternEntry) =
      ⟨jsToLower input, response, min 100 (q + 2 * (j + 1 - 1)), j + 1, now⟩ := by
    unfold reinforce
    simp only [PatternEntry.mk.injEq, true_and, and_true]
    rw [if_neg (by omega)]
    constructor
    · omega
    · rfl
  constructor
  · intro k hk
    rw [learnPattern_cluster_at hk]
    have h := clusterStep_reinforce (t := now) (q := q) (r := response)
      (hcl k hk).1 rfl (hcl k hk).2
    rw [hrein] at h
    refine ⟨h.1, ?_⟩
    have hb := h.2
    have hl := (hcl k hk).2
    omega
  · intro hq60
    obtain ⟨hEE, hlen⟩ := hcp hq60
    obtain ⟨l1, l2, hdec, h1, h2, hEinp, hupd⟩ :=
      updateEntryList_found (q := q) (t := now) (r := response) hEE.1 hEE.2
    rw [if_pos rfl, hrein] at hupd
    have hll : (updateEntryList (jsToLower input) response q now m.contextPairs).length
        ≤ 1000 := by
      have h3 := hlen
      rw [hdec] at h3
      rw [hupd]
      simpa using h3
    rw [learnPattern_pairs_le hq60 hll, hupd]
    refine ⟨?_, ?_⟩
    · exact exactEntry_append_decomp h1 h2 (by simp [hasInput])
    · have h3 := hlen
      rw [hdec] at h3
      simp only [List.length_append, List.length_cons] at h3 ⊢
      omega

/-- The repeated-learning invariant carried over a list of call instants. -/
theorem applyLearnTimes_inv (input response : String) (q : Nat) (ts : List Nat) :
    ∀ (m : Memory) (j t0 : Nat), 1 ≤ j →
    (∀ k ∈ extractKeywords input,
        ExactEntry (jsToLower input)
          ⟨jsToLower input, response, min 100 (q + 2 * (j - 1)), j, t0⟩
          (m.semanticClusters k) ∧ (m.semanticClusters k).length ≤ 20) →
    (60 ≤ q →
        ExactEntry (jsToLower input)
          ⟨jsToLower input, response, min 100 (q + 2 * (j - 1)), j, t0⟩
          m.contextPairs ∧ m.contextPairs.length ≤ 1000) →
    ∃ t1,
      (∀ k ∈ extractKeywords input,
        ExactEntry (jsToLower input)
          ⟨jsToLower input, response, min 100 (q + 2 * (j + ts.length - 1)), j + ts.length, t1⟩
          ((applyLearnTimes input response q ts m).semanticClusters k) ∧
        ((applyLearnTimes input response q ts m).semanticClusters k).length ≤ 20) ∧
      (60 ≤ q →
        ExactEntry (jsToLower input)
          ⟨jsToLower input, response, min 100 (q + 2 * (j + ts.length - 1)), j + ts.length, t1⟩
          (applyLearnTimes input response q ts m).contextPairs ∧
        (applyLearnTimes input response q ts m).contextPairs.length ≤ 1000) := by
  induction ts with
  | nil =>
    intro m j t0 hj hcl hcp
    exact ⟨t0, hcl, hcp⟩
  | cons t ts ih =>
    intro m j t0 hj hcl hcp
    rw [applyLearnTimes_cons]
    have hstep := learnPattern_repeat_step input response q t0 t m j hj hcl hcp
    obtain ⟨t1, h1, h2⟩ := ih (learnPattern input response q t m) (j + 1) t
      (by omega) hstep.1 hstep.2
    rw [show j + 1 + ts.length = j + (ts.length + 1) from by omega] at h1 h2
    exact ⟨t1, h1, h2⟩

/-- C1 amended: starting from a store with no entry for the lowercased
input and with room below both caps (each affected cluster under 20
entries, `ContextPairs` under 1000), calling
`learnPattern(input, response, q)` N ≥ 1 times (any instants, `0 ≤ q ≤ 100`)
leaves exactly one entry for the input in each cluster keyed by one of its
keywords with `confidence = N` and `quality = min(100, q + 2(N-1))`, and
likewise in `ContextPairs` when `q ≥ 60`.  (Without the cap-room proviso
the fresh entry can be evicted at once, see the counterexample.) -/
theorem reinforcement_idempotence (input response : String) (q : Nat)
    (ts : List Nat) (m0 : Memory)
    (hq : q ≤ 100) (hts : ts ≠ [])
    (hcl : ∀ k : String, ∀ e ∈ m0.semanticClusters k, e.input ≠ jsToLower input)
    (hlen : ∀ k ∈ extractKeywords input, (m0.semanticClusters k).length < 20)
    (hcp : ∀ e ∈ m0.contextPairs, e.input ≠ jsToLower input)
    (hcplen : m0.contextPairs.length < 1000) :
    (∀ k ∈ extractKeywords input,
        UniqueEntry (jsToLower input) response ts.length
          (min 100 (q + 2 * (ts.length - 1)))
          ((applyLearnTimes input response q ts m0).semanticClusters k)) ∧
    (60 ≤ q →
        UniqueEntry (jsToLower input) response ts.length
          (min 100 (q + 2 * (ts.length - 1)))
          (applyLearnTimes input response q ts m0).contextPairs) := by
  rcases ts with _ | ⟨t, ts'⟩
  · exact absurd rfl hts
  rw [applyLearnTimes_cons]
  have hbase := learnPattern_insert_base input response q t m0 hq hcl hlen hcp hcplen
  obtain ⟨t1, h1, h2⟩ := applyLearnTimes_inv input response q ts'
    (learnPattern input response q t m0) 1 t (Nat.le_refl 1) hbase.1 hbase.2
  rw [show 1 + ts'.length = (t :: ts').length from by simp; omega] at h1 h2
  constructor
  · intro k hk
    exact (h1 k hk).1.toUnique
  · intro hq60
    exact (h2 hq60).1.toUnique

/-- Witness for C1: learning `("zebra", "r")` twice at quality 70 from the
empty store yields the unique entry with confidence 2, quality 72 in the
`"zebra"` cluster and in `ContextPairs`. -/
theorem reinforcement_idempotence_witness :
    UniqueEntry (jsToLower "zebra") "r" 2 (min 100 (70 + 2 * 1))
      ((applyLearnTimes "zebra" "r" 70 [0, 5] initialMemory).semanticClusters "zebra") ∧
    UniqueEntry (jsToLower "zebra") "r" 2 (min 100 (70 + 2 * 1))
      (applyLearnTimes "zebra" "r" 70 [0, 5] initialMemory).contextPairs := by
  have h := reinforcement_idempotence "zebra" "r" 70 [0, 5] initialMemory (by decide)
    (by decide) (fun k e he => absurd he (List.not_mem_nil e)) (by decide)
    (fun e he => absurd he (List.not_mem_nil e)) (by decide)
  exact ⟨h.1 "zebra" (by decide), h.2 (by decide)⟩

/-! ### C1 counterexample: eviction can delete the freshly learned entry -/

/-- Provenance through `updateEntryList`: every output entry either stores
the call's input or was already present. -/
theorem mem_updateEntryList_input {inp r : String} {q t : Nat} {l : List PatternEntry}
    {e : PatternEntry} (h : e ∈ updateEntryList inp r q t l) :
    e.input = inp ∨ e ∈ l := by
  induction l with
  | nil =>
    left
    simp only [updateEntryList, List.mem_singleton] at h
    rw [h]
    rfl
  | cons a rest ih =>
    by_cases ha : a.input = inp
    · simp only [updateEntryList, if_pos ha] at h
      rcases List.mem_cons.mp h with rfl | hrest
      · left
        split
        · rw [reinforce_input, ha]
        · split
          · rfl
          · exact ha
      · exact Or.inr (List.mem_cons_of_mem _ hrest)
    · simp only [updateEntryList, if_neg ha] at h
      rcases List.mem_cons.mp h with rfl | hrest
      · exact Or.inr (List.mem_cons_self _ _)
      · rcases ih hrest with h1 | h2
        · exact Or.inl h1
        · exact Or.inr (List.mem_cons_of_mem _ h2)

theorem mem_clusterStep_input {inp r : String} {q t : Nat} {l : List PatternEntry}
    {e : PatternEntry} (h : e ∈ clusterStep inp r q t l) :
    e.input = inp ∨ e ∈ l := by
  have hmem : e ∈ updateEntryList inp r q t l := by
    unfold clusterStep at h
    split at h
    · exact mem_sortByScoreDesc.mp (List.take_subset _ _ h)
    · exact mem_sortByScoreDesc.mp h
  exact mem_updateEntryList_input hmem

theorem mem_learnClusters_input (inp r : String) (q t : Nat) (kws : List String) :
    ∀ (f : String → List PatternEntry) (k : String) (e : PatternEntry),
    e ∈ learnClusters inp r q t kws f k → e.input = inp ∨ e ∈ f k := by
  induction kws with
  | nil => exact fun f k e h => Or.inr h
  | cons a rest ih =>
    intro f k e h
    rw [learnClusters_cons] at h
    rcases ih _ k e h with h1 | h2
    · exact Or.inl h1
    · by_cases hka : k = a
      · subst hka
        simp only [if_pos rfl] at h2
        exact mem_clusterStep_input h2
      · simp only [if_neg hka] at h2
        exact Or.inr h2

theorem mem_learnPattern_cluster_input {input response : String} {q now : Nat}
    {m : Memory} {k : String} {e : PatternEntry}
    (h : e ∈ (learnPattern input response q now m).semanticClusters k) :
    e.input = jsToLower input ∨ e ∈ m.semanticClusters k := by
  rw [learnPattern_semanticClusters] at h
  exact mem_learnClusters_input _ _ _ _ _ _ _ _ h

/-- No cluster of the full `"zebra"` store holds an entry for the bare
input `"zebra"` (the twenty stored inputs are all two-word variants). -/
theorem zebraFullStore_no_zebra :
    ∀ k : String, ∀ e ∈ zebraFullStore.semanticClusters k, e.input ≠ jsToLower "zebra" := by
  have hgen : ∀ (inputs : List String) (m : Memory),
      (∀ s ∈ inputs, jsToLower s ≠ jsToLower "zebra") →
      (∀ k : String, ∀ e ∈ m.semanticClusters k, e.input ≠ jsToLower "zebra") →
      ∀ k : String, ∀ e ∈ (inputs.foldl (fun m s => learnPattern s "ra" 90 0 m) m).semanticClusters k,
        e.input ≠ jsToLower "zebra" := by
    intro inputs
    induction inputs with
    | nil => exact fun m _ hm k e he => hm k e he
    | cons s rest ih =>
      intro m hins hm k e he
      rw [List.foldl_cons] at he
      refine ih _ (fun s' hs' => hins s' (List.mem_cons_of_mem _ hs')) ?_ k e he
      intro k' e' he'
      rcases mem_learnPattern_cluster_input he' with h1 | h2
      · rw [h1]
        exact hins s (List.mem_cons_self _ _)
      · exact hm k' e' h2
  exact hgen zebraInputs initialMemory (by decide)
    (fun k' e' he' => absurd he' (List.not_mem_nil e'))

set_option maxRecDepth 1000000 in
/-- C1 counterexample: in a reachable store whose `"zebra"` cluster is full
with twenty higher-scoring entries and which holds no entry for the input
`"zebra"`, a single call `learnPattern("zebra", "resp", 50)` (N = 1,
`0 ≤ 50 ≤ 100`) leaves ZERO entries for that input in the cluster keyed by
its keyword — the fresh entry is sorted last and evicted — not exactly one
as claimed. -/
theorem reinforcement_idempotence_cex :
    (∀ k : String, ∀ e ∈ zebraFullStore.semanticClusters k, e.input ≠ jsToLower "zebra") ∧
    (∀ e ∈ zebraFullStore.contextPairs, e.input ≠ jsToLower "zebra") ∧
    ((applyLearnTimes "zebra" "resp" 50 [0] zebraFullStore).semanticClusters "zebra").countP
      (hasInput (jsToLower "zebra")) = 0 :=
  ⟨zebraFullStore_no_zebra, by decide, by decide⟩

end TuringAI
